import Mathlib

/-!
Verification development for the jobs-aggregator deduplication and
posting-state reconciliation engine.

The development shallowly embeds, from the repository sources:

* the **Global Delivery Ledger** (`GlobalDedupeManager`),
* the **Rolling Dedupe Store** (`processors/deduplicator.js`: the
  TTL-based `cleanupOldEntries`, the per-job loop of `deduplicateJobs`,
  the 14-day active-window variant of the same loop, and the loader with
  its old-format migration path),
* the **Posting Ledger** (`src/data/posted-jobs-manager-v2.js`:
  `hasBeenPosted`, `markAsPosted`, `markAsPostedToChannel`,
  `hasBeenPostedToChannel`, `getChannelJobNumber` with its session
  counters and constructor-time archive-count cache, `archiveOldJobs`,
  and the merge-then-verify `savePostedJobs`).

Wall-clock times are modelled as natural numbers of milliseconds.
JavaScript date comparisons are embedded as the equivalent exact integer
comparisons: `(now - d) / 86400000 > k` becomes
`k * msPerDay < now - d` (both sides scale by the positive constant
`msPerDay`), and `new Date(d) > new Date(now - w)` becomes
`now < d + w` (the same inequality rearranged so that truncated natural
subtraction cannot change its value). A future-dated entry — a negative
elapsed time in JavaScript — maps to truncated subtraction `0`, which
fails the same strict comparisons. Calendar dates are abstracted as
epoch days (`t / msPerDay`) and calendar months as fixed 30-day periods;
no statement below depends on where day or month boundaries fall.
-/

namespace JobsAggregator

/-- Milliseconds per day, as in the source's `1000 * 60 * 60 * 24`. -/
def msPerDay : Nat := 1000 * 60 * 60 * 24

/-- Association-list lookup keyed by strings, modelling JavaScript object
property access (`obj[key]`) and `Map.get`. Returns the first binding of
the key. -/
def alookup {α : Type} (k : String) : List (String × α) → Option α
  | [] => none
  | (k', v) :: rest => if k' = k then some v else alookup k rest

/-- Remove every binding of a key, modelling `delete obj[key]` /
`Map.delete`. -/
def aerase {α : Type} (k : String) : List (String × α) → List (String × α)
  | [] => []
  | (k', v) :: rest => if k' = k then aerase k rest else (k', v) :: aerase k rest

/-- Insert-or-overwrite a binding, modelling `obj[key] = value` /
`Map.set`. -/
def aset {α : Type} (k : String) (v : α) (l : List (String × α)) : List (String × α) :=
  (k, v) :: aerase k l

/-- Association-list lookup for numeric keys (the monthly archive files,
keyed by month). -/
def klookup {α : Type} (k : Nat) : List (Nat × α) → Option α
  | [] => none
  | (k', v) :: rest => if k' = k then some v else klookup k rest

/-- Remove every binding of a numeric key. -/
def kerase {α : Type} (k : Nat) : List (Nat × α) → List (Nat × α)
  | [] => []
  | (k', v) :: rest => if k' = k then kerase k rest else (k', v) :: kerase k rest

/-- Insert-or-overwrite a numeric-keyed binding (writing one month's
archive file). -/
def kset {α : Type} (k : Nat) (v : α) (l : List (Nat × α)) : List (Nat × α) :=
  (k, v) :: kerase k l

/-- On-disk state as seen by a loader: the file may be absent, unreadable
or malformed (corrupt JSON / a read or parse exception), or hold parsed
contents. -/
inductive RawFile (α : Type) where
  | missing
  | corrupt
  | valid (contents : α)

/-! ## Global Delivery Ledger (`GlobalDedupeManager`)

Embedded from the repository source: a TTL-only fingerprint store with a
strict, non-sliding expiry. -/

/-- One value of the `fingerprints` map of the global dedupe store, as
written by `GlobalDedupeManager.markAsPosted`. -/
structure GEntry where
  jobId : String
  sourceRepo : String
  channelId : String
  messageId : String
  postedAt : Nat
deriving DecidableEq

/-- The persisted global dedupe store
(`{version, lastUpdated, fingerprints}`). -/
structure GStore where
  version : Nat
  lastUpdated : Nat
  fingerprints : List (String × GEntry)
deriving DecidableEq

namespace GlobalDedupeManager

/-- `TTL_DAYS = 14` from the source. -/
def TTL_DAYS : Nat := 14

/-- `cleanup(store)`: delete every fingerprint entry whose
`daysSincePosted > TTL_DAYS`. -/
def cleanup (now : Nat) (st : GStore) : GStore :=
  { st with fingerprints :=
      st.fingerprints.filter (fun p => ¬ TTL_DAYS * msPerDay < now - p.2.postedAt) }

/-- `hasBeenPosted(fingerprint)`: no entry → `false`; an entry with
`daysSincePosted > TTL_DAYS` is deleted and the call returns `false`;
otherwise `true`. The surviving entry's timestamp is never modified.
The mutated store is returned alongside the boolean. -/
def hasBeenPosted (st : GStore) (now : Nat) (fingerprint : String) : Bool × GStore :=
  match alookup fingerprint st.fingerprints with
  | none => (false, st)
  | some e =>
    if TTL_DAYS * msPerDay < now - e.postedAt then
      (false, { st with fingerprints := aerase fingerprint st.fingerprints })
    else
      (true, st)

/-- `markAsPosted(fingerprint, jobId, sourceRepo, channelId, messageId)`:
record a fresh timestamped entry, overwriting any previous one. -/
def markAsPosted (st : GStore) (now : Nat)
    (fingerprint jobId sourceRepo channelId messageId : String) : GStore :=
  { st with
    fingerprints := aset fingerprint ⟨jobId, sourceRepo, channelId, messageId, now⟩ st.fingerprints }

/-- `loadStore()`: a readable, well-formed file is cleaned of expired
entries and returned; a missing file, or any read/parse error, falls back
to the default empty store (non-fatal). -/
def loadStore (file : RawFile GStore) (now : Nat) : GStore :=
  match file with
  | .valid st => cleanup now st
  | .missing => { version := 1, lastUpdated := now, fingerprints := [] }
  | .corrupt => { version := 1, lastUpdated := now, fingerprints := [] }

end GlobalDedupeManager

/-! ## Rolling Dedupe Store (`processors/deduplicator.js`)

Embedded from the repository source. The repository carries the
store-with-timestamps variants of this module: the cited 7-day variant
whose per-job loop excludes previously-seen jobs from the output, and
the 14-day active-window variant whose loop includes them. Both share
the same `cleanupOldEntries` shape; its TTL constant (7 respectively 14
days) is passed as the `ttlMs` argument below. -/

/-- The in-memory dedupe store: `{ ids: Map, fingerprints: Map }`, each
map binding a key to its last-seen timestamp in milliseconds. -/
structure DedupeStore where
  ids : List (String × Nat)
  fingerprints : List (String × Nat)
deriving DecidableEq

/-- `DEDUPE_TTL_DAYS = 7` of the cited 7-day variant. -/
def DEDUPE_TTL_DAYS : Nat := 7

/-- `DEDUPE_TTL_MS = DEDUPE_TTL_DAYS * 24 * 60 * 60 * 1000`. -/
def DEDUPE_TTL_MS : Nat := DEDUPE_TTL_DAYS * msPerDay

/-- `DEDUPE_TTL_DAYS = 14` of the active-window variant. -/
def DEDUPE_TTL_DAYS_AW : Nat := 14

/-- The active-window variant's TTL in milliseconds. -/
def DEDUPE_TTL_MS_AW : Nat := DEDUPE_TTL_DAYS_AW * msPerDay

/-- `cleanupOldEntries(store)`: with `cutoff = now - ttlMs`, delete every
id and fingerprint entry whose `timestamp < cutoff` — strictly older
than the TTL; an entry whose age equals the TTL exactly is kept. -/
def cleanupOldEntries (ttlMs now : Nat) (store : DedupeStore) : DedupeStore :=
  { ids := store.ids.filter (fun p => ¬ p.2 < now - ttlMs),
    fingerprints := store.fingerprints.filter (fun p => ¬ p.2 < now - ttlMs) }

/-- A normalized job record as supplied by the fetch collaborators. -/
structure Job where
  id : String
  fingerprint : String
  title : String
  company : String
  location : String
  url : String
  sourceDate : Option Nat
deriving DecidableEq

/-- The per-job loop of the cited 7-day `deduplicateJobs`
(deduplicator.js:159-180): an id hit records the job as a duplicate,
refreshes **only** the id timestamp and `continue`s (a simultaneously
matching fingerprint is not refreshed); otherwise a fingerprint hit
refreshes only the fingerprint; otherwise the job is unique — it is
pushed to the output and both keys are recorded with the current time. -/
def processJobs (now : Nat) : List Job → DedupeStore → List Job × DedupeStore
  | [], store => ([], store)
  | job :: rest, store =>
    if (alookup job.id store.ids).isSome then
      processJobs now rest { store with ids := aset job.id now store.ids }
    else if (alookup job.fingerprint store.fingerprints).isSome then
      processJobs now rest
        { store with fingerprints := aset job.fingerprint now store.fingerprints }
    else
      let store' : DedupeStore :=
        { ids := aset job.id now store.ids,
          fingerprints := aset job.fingerprint now store.fingerprints }
      let tail := processJobs now rest store'
      (job :: tail.1, tail.2)

/-- `deduplicateJobs(jobs)` of the 7-day variant: load the store (taken
here as an argument), run `cleanupOldEntries` once before the loop, then
process the batch. -/
def deduplicateJobs (ttlMs now : Nat) (jobs : List Job) (store : DedupeStore) :
    List Job × DedupeStore :=
  processJobs now jobs (cleanupOldEntries ttlMs now store)

/-- The per-job loop of the 14-day active-window `deduplicateJobs`
(deduplicator.js:639-655): a job seen by id and/or fingerprint has each
**matching** key's timestamp refreshed and is still included in the
output (the active window); a net-new job records both keys and is
included as well. -/
def processJobsAW (now : Nat) : List Job → DedupeStore → List Job × DedupeStore
  | [], store => ([], store)
  | job :: rest, store =>
    let seenById := (alookup job.id store.ids).isSome
    let seenByFp := (alookup job.fingerprint store.fingerprints).isSome
    let store' : DedupeStore :=
      if seenById || seenByFp then
        { ids := if seenById then aset job.id now store.ids else store.ids,
          fingerprints :=
            if seenByFp then aset job.fingerprint now store.fingerprints
            else store.fingerprints }
      else
        { ids := aset job.id now store.ids,
          fingerprints := aset job.fingerprint now store.fingerprints }
    let tail := processJobsAW now rest store'
    (job :: tail.1, tail.2)

/-- `deduplicateJobs(jobs)` of the active-window variant: cleanup once,
then process the batch with the inclusive loop. -/
def deduplicateJobsAW (ttlMs now : Nat) (jobs : List Job) (store : DedupeStore) :
    List Job × DedupeStore :=
  processJobsAW now jobs (cleanupOldEntries ttlMs now store)

/-- One field (`ids` or `fingerprints`) of a parsed dedupe-store file:
the old array format without timestamps, the map format with
timestamps, or absent. -/
inductive DedupeField where
  | oldFormat (keys : List String)
  | newFormat (entries : List (String × Nat))
  | absent
deriving DecidableEq

/-- Convert one parsed field to a timestamp map as `loadDedupeStore`
does: old-format keys all receive the current time; map entries are
taken as-is; an absent field yields the empty map. -/
def fieldEntries (now : Nat) : DedupeField → List (String × Nat)
  | .oldFormat keys => keys.map (fun k => (k, now))
  | .newFormat entries => entries
  | .absent => []

/-- `loadDedupeStore()` (deduplicator.js:27-75): a missing file and any
read/parse error both yield the empty store (non-fatal, with a logged
warning); a readable file has each field converted, migrating the old
array format by stamping every key with the current time. -/
def loadDedupeStore (now : Nat) : RawFile (DedupeField × DedupeField) → DedupeStore
  | .valid fields => ⟨fieldEntries now fields.1, fieldEntries now fields.2⟩
  | .missing => ⟨[], []⟩
  | .corrupt => ⟨[], []⟩

/-! ## Posting Ledger (`src/data/posted-jobs-manager-v2.js`)

Embedded from the repository source: the `PostedJobsManagerV2` class.
The manager's state is its in-memory database `this.data`, the
per-session channel counters, the constructor-time cache of archive
channel counts, and the monthly archive files. -/

/-- A posting-record identifier. The source derives it as the string
`jobId + "-" + date + "-" + instanceNumber` (or
`jobId + "-migrated-" + index` for records migrated from the V1
format); it is modelled as the derivation data itself, so that equality
of identifiers is equality of the derivation inputs. -/
inductive RecordId where
  | derived (jobId : String) (dayKey : Nat) (ordinal : Nat)
  | migrated (jobId : String) (index : Nat)
deriving DecidableEq

/-- One per-channel entry of a record's `discordPosts` map. -/
structure ChannelPost where
  messageId : String
  channelType : String
  postedAt : Nat
  channelJobNumber : Nat
deriving DecidableEq

/-- The database metadata
(`{totalJobs, activeWindowDays, channelJobNumbers}`; audit-only flags
such as `migratedFromV1` are omitted). -/
structure DbMetadata where
  totalJobs : Nat
  activeWindowDays : Nat
  channelJobNumbers : List (String × Nat)
deriving DecidableEq

/-- One record of `this.data.jobs`. -/
structure JobRecord where
  id : RecordId
  jobId : String
  company : String
  title : String
  postedToDiscord : Nat
  sourceDate : Option Nat
  sourceUrl : Option String
  discordThreadId : Option String
  discordPosts : List (String × ChannelPost)
  instanceNumber : Nat
  jobCity : Option String
  jobState : Option String
  jobDescription : Option String
deriving DecidableEq

/-- The active database file `posted_jobs.json` (V2 format). -/
structure Database where
  version : Nat
  lastUpdated : Nat
  jobs : List JobRecord
  metadata : DbMetadata
deriving DecidableEq

/-- A job as supplied by the API to the manager. `sha256Id` stands for
`generateJobId(jobData)` — the SHA-256 digest of
employer|title|applyLink, carried as an opaque value; `urlId` is the
fetcher's URL-based `jobData.id`; `sourceDate` is
`job_posted_at_datetime_utc`. -/
structure JobData where
  sha256Id : String
  urlId : Option String
  employerName : Option String
  jobTitle : Option String
  applyLink : Option String
  sourceDate : Option Nat
  city : Option String
  state : Option String
  description : Option String
deriving DecidableEq

/-- The full manager state: the in-memory database, the per-session
channel counters, the archive channel counts cached once at
construction, and the monthly archive files keyed by month. -/
structure ManagerState where
  data : Database
  sessionChannelCounters : List (String × Nat)
  archiveChannelCounts : List (String × Nat)
  archiveFiles : List (Nat × List JobRecord)
deriving DecidableEq

/-- `createEmptyDatabase()`. -/
def createEmptyDatabase (awDays now : Nat) : Database :=
  { version := 2
    lastUpdated := now
    jobs := []
    metadata := { totalJobs := 0, activeWindowDays := awDays, channelJobNumbers := [] } }

/-- `migrateFromV1(jobIdsArray)`: every V1 id becomes a record stamped
eight days in the past (so the next save archives it), numbered as
instance 1, with unknown company/title. -/
def migrateFromV1 (awDays now : Nat) (jobIds : List String) : Database :=
  let jobs := jobIds.enum.map (fun p =>
    ({ id := .migrated p.2 p.1
       jobId := p.2
       company := "Unknown (migrated)"
       title := "Unknown (migrated)"
       postedToDiscord := now - 8 * msPerDay
       sourceDate := none
       sourceUrl := none
       discordThreadId := none
       discordPosts := []
       instanceNumber := 1
       jobCity := none
       jobState := none
       jobDescription := none } : JobRecord))
  { version := 2
    lastUpdated := now
    jobs := jobs
    metadata := { totalJobs := jobs.length, activeWindowDays := awDays, channelJobNumbers := [] } }

/-- The parsed shape of a readable `posted_jobs.json`: the V1 simple
array, the V2 structured object, or an unknown format. -/
inductive PostedJobsRaw where
  | v1 (jobIds : List String)
  | v2 (db : Database)
  | unknownFormat
deriving DecidableEq

/-- `loadPostedJobs()` (posted-jobs-manager-v2.js:40-70): a missing
file, a read/parse error, and an unknown format all yield the empty
database (non-fatal); a V1 array is migrated; a V2 object is returned
as-is. -/
def loadPostedJobs (awDays now : Nat) : RawFile PostedJobsRaw → Database
  | .missing => createEmptyDatabase awDays now
  | .corrupt => createEmptyDatabase awDays now
  | .valid (.v1 ids) => migrateFromV1 awDays now ids
  | .valid (.v2 db) => db
  | .valid .unknownFormat => createEmptyDatabase awDays now

/-- `new Date(job.postedToDiscord) > new Date(now - awDays*day)`,
rearranged to the truncation-safe `now < posted + awDays*day`. -/
def withinWindowJ (awDays now : Nat) (j : JobRecord) : Bool :=
  decide (now < j.postedToDiscord + awDays * msPerDay)

/-- Step 1 of `hasBeenPosted`: all records matching the URL-based id;
when none match and job data is available, retry once under the SHA256
content-hash id. -/
def lookupInstances (db : Database) (jobId : String) (jobData : Option JobData) :
    List JobRecord :=
  let instances0 := db.jobs.filter (fun j => j.jobId == jobId)
  if instances0.isEmpty then
    match jobData with
    | some jd => db.jobs.filter (fun j => j.jobId == jd.sha256Id)
    | none => instances0
  else instances0

/-- `hasBeenPosted(jobId, jobData)`
(posted-jobs-manager-v2.js:137-220), `true` meaning "already posted —
skip". After the id lookup (with SHA256 fallback): no instances →
`false`; any instance within the active window → `true`; otherwise the
earliest reference date (`sourceDate || postedToDiscord`) more than the
hard-coded 7 days old → `true` (the job is rejected as too old from its
original posting); otherwise a fresh API source date within the
reopening window → `false` and an older one → `true`; with no source
date, an oldest instance at least 3 months old → `false`, else the
default `true`. -/
def hasBeenPosted (awDays rwDays : Nat) (db : Database) (now : Nat)
    (jobId : String) (jobData : Option JobData) : Bool :=
  let instances := lookupInstances db jobId jobData
  if instances.isEmpty then false
  else if instances.any (withinWindowJ awDays now) then true
  else
    let tooOld :=
      match (instances.map (fun j => j.sourceDate.getD j.postedToDiscord)).min? with
      | some originalDate => decide (7 * msPerDay < now - originalDate)
      | none => false
    if tooOld then true
    else
      let noSourceCheck :=
        match (instances.map (fun j => j.postedToDiscord)).min? with
        | some oldest => decide (¬ 90 * msPerDay ≤ now - oldest)
        | none => true
      match jobData with
      | some jd =>
        match jd.sourceDate with
        | some sd => decide (¬ now - sd ≤ rwDays * msPerDay)
        | none => noSourceCheck
      | none => noSourceCheck

/-- `markAsPosted(jobId, jobData, discordThreadId)`
(posted-jobs-manager-v2.js:229-264): unconditionally push a new record
whose `instanceNumber` is the count of records with this `jobId`
**in the active database only** plus one (archived instances are never
consulted). The trailing `savePostedJobs()` call persists the state and
is modelled separately by `savePostedJobsM`. -/
def markAsPosted (db : Database) (now : Nat) (jobId : String) (jd : JobData)
    (discordThreadId : Option String) : Database :=
  let existingInstances := db.jobs.filter (fun j => j.jobId == jobId)
  let instanceNumber := existingInstances.length + 1
  let newJob : JobRecord :=
    { id := .derived jobId (now / msPerDay) instanceNumber
      jobId := jobId
      company := jd.employerName.getD "Unknown"
      title := jd.jobTitle.getD "Unknown"
      postedToDiscord := now
      sourceDate := jd.sourceDate
      sourceUrl := jd.applyLink
      discordThreadId := discordThreadId
      discordPosts := []
      instanceNumber := instanceNumber
      jobCity := jd.city
      jobState := jd.state
      jobDescription := jd.description }
  { db with
    jobs := db.jobs ++ [newJob]
    lastUpdated := now
    metadata := { db.metadata with totalJobs := db.jobs.length + 1 } }

/-- `getChannelJobNumber(channelId)`
(posted-jobs-manager-v2.js:397-435). An uninitialized session counter is
seeded from the persisted metadata high-water-mark; when that is 0, the
seed is recomputed as the count of active records carrying a post to the
channel plus the **constructor-time cache** `archiveChannelCounts`
(which `archiveOldJobs` never refreshes). The session counter is then
incremented, persisted to metadata, and returned. -/
def getChannelJobNumber (channelId : String) (st : ManagerState) : Nat × ManagerState :=
  match alookup channelId st.sessionChannelCounters with
  | some s =>
    let v := s + 1
    (v, { st with
          sessionChannelCounters := aset channelId v st.sessionChannelCounters
          data := { st.data with
                    metadata := { st.data.metadata with
                                  channelJobNumbers :=
                                    aset channelId v st.data.metadata.channelJobNumbers } } })
  | none =>
    let persisted0 := (alookup channelId st.data.metadata.channelJobNumbers).getD 0
    let persisted :=
      if persisted0 = 0 then
        (st.data.jobs.filter (fun j => (alookup channelId j.discordPosts).isSome)).length
          + (alookup channelId st.archiveChannelCounts).getD 0
      else persisted0
    let v := persisted + 1
    (v, { st with
          sessionChannelCounters := aset channelId v st.sessionChannelCounters
          data := { st.data with
                    metadata := { st.data.metadata with
                                  channelJobNumbers :=
                                    aset channelId v st.data.metadata.channelJobNumbers } } })

/-- The tail of `markAsPostedToChannel` once the job record (identified
by `rid`) exists: obtain the channel job number (the pre-supplied one,
or the next from `getChannelJobNumber`), then insert/overwrite the
record's `discordPosts[channelId]` entry. -/
def finishDelivery (st : ManagerState) (rid : RecordId) (now : Nat)
    (messageId channelId channelType : String) (preNum : Option Nat) :
    Bool × ManagerState :=
  let numSt := match preNum with
    | some n => (n, st)
    | none => getChannelJobNumber channelId st
  let post : ChannelPost := ⟨messageId, channelType, now, numSt.1⟩
  let st2 := numSt.2
  (true,
   { st2 with
     data := { st2.data with
               jobs := st2.data.jobs.map (fun j =>
                 if j.id == rid then
                   { j with discordPosts := aset channelId post j.discordPosts }
                 else j)
               lastUpdated := now } })

/-- `markAsPostedToChannel(jobData, messageId, channelId, channelType,
channelJobNumber)` (posted-jobs-manager-v2.js:276-348): locate the
job's record within the active window (by SHA256 id); absent that,
refuse a second same-calendar-day posting, otherwise create a fresh
record whose `instanceNumber` is the active-database count for this
jobId plus one; finally record the channel delivery. The trailing
`savePostedJobs()` call is modelled separately. -/
def markAsPostedToChannel (awDays : Nat) (st : ManagerState) (now : Nat) (jd : JobData)
    (messageId channelId channelType : String) (preNum : Option Nat) :
    Bool × ManagerState :=
  let jobId := jd.sha256Id
  let today := now / msPerDay
  match st.data.jobs.find? (fun j => j.jobId == jobId && withinWindowJ awDays now j) with
  | some r0 => finishDelivery st r0.id now messageId channelId channelType preNum
  | none =>
    if st.data.jobs.any (fun j => j.jobId == jobId && j.postedToDiscord / msPerDay == today) then
      (false, st)
    else
      let n := (st.data.jobs.filter (fun j => j.jobId == jobId)).length + 1
      let r : JobRecord :=
        { id := .derived jobId today n
          jobId := jobId
          company := jd.employerName.getD "Unknown"
          title := jd.jobTitle.getD "Unknown"
          postedToDiscord := now
          sourceDate := jd.sourceDate
          sourceUrl := jd.applyLink
          discordThreadId := none
          discordPosts := []
          instanceNumber := n
          jobCity := jd.city
          jobState := jd.state
          jobDescription := jd.description }
      let st1 : ManagerState :=
        { st with
          data := { st.data with
                    jobs := st.data.jobs ++ [r]
                    metadata := { st.data.metadata with
                                  totalJobs := st.data.jobs.length + 1 } } }
      finishDelivery st1 r.id now messageId channelId channelType preNum

/-- `hasBeenPostedToChannel(jobData, channelId)`
(posted-jobs-manager-v2.js:362-386): find the first record matching the
SHA256 id **and** posted within the active window; failing that, the
first within-window record matching the URL-based id; no such record →
`false`; otherwise whether that record's `discordPosts` holds an entry
for the channel. -/
def hasBeenPostedToChannel (awDays : Nat) (db : Database) (now : Nat)
    (jd : JobData) (channelId : String) : Bool :=
  let first := db.jobs.find? (fun j => j.jobId == jd.sha256Id && withinWindowJ awDays now j)
  let found := match first with
    | some r => some r
    | none =>
      match jd.urlId with
      | some uid => db.jobs.find? (fun j => j.jobId == uid && withinWindowJ awDays now j)
      | none => none
  match found with
  | none => false
  | some r => (alookup channelId r.discordPosts).isSome

/-- Month partition key of a `postedToDiscord` timestamp. The source
keys archive files by the ISO "YYYY-MM" prefix; months are abstracted as
fixed 30-day periods (see the module header). -/
def monthKey (t : Nat) : Nat := t / (30 * msPerDay)

/-- Insert a record into a list sorted by `postedToDiscord`. -/
def insertByPosted (j : JobRecord) : List JobRecord → List JobRecord
  | [] => [j]
  | x :: t =>
    if j.postedToDiscord ≤ x.postedToDiscord then j :: x :: t
    else x :: insertByPosted j t

/-- Sort records by `postedToDiscord` (the comparator of
`archiveOldJobs`'s merge). -/
def sortByPosted : List JobRecord → List JobRecord
  | [] => []
  | x :: t => insertByPosted x (sortByPosted t)

/-- One month's archive merge: drop batch records whose `id` already
occurs in the existing file, append the remainder, and sort the merged
file by `postedToDiscord`. -/
def archiveMonth (file monthJobs : List JobRecord) : List JobRecord :=
  let existingIds := file.map (fun j => j.id)
  sortByPosted (file ++ monthJobs.filter (fun j => ¬ existingIds.contains j.id))

/-- One step of the per-month archive loop: rewrite the month's file
with the merged contents. -/
def archiveFoldStep (toArchive : List JobRecord)
    (acc : List (Nat × List JobRecord)) (mk : Nat) : List (Nat × List JobRecord) :=
  kset mk
    (archiveMonth ((klookup mk acc).getD [])
      (toArchive.filter (fun j => monthKey j.postedToDiscord == mk)))
    acc

/-- `archiveOldJobs()` (posted-jobs-manager-v2.js:497-583): partition
the active records by window age; with nothing to archive the state is
left untouched; otherwise each month's expired records are merged into
that month's archive file (deduplicated against the existing file by
record id, sorted by `postedToDiscord`), and the active database keeps
only the still-active partition. -/
def archiveOldJobsM (awDays now : Nat) (st : ManagerState) : ManagerState :=
  let active := st.data.jobs.filter (withinWindowJ awDays now)
  let toArchive := st.data.jobs.filter (fun j => !(withinWindowJ awDays now j))
  if toArchive.isEmpty then st
  else
    let months := (toArchive.map (fun j => monthKey j.postedToDiscord)).dedup
    { st with
      data := { st.data with
                jobs := active
                metadata := { st.data.metadata with totalJobs := active.length } }
      archiveFiles := months.foldl (archiveFoldStep toArchive) st.archiveFiles }

/-- The per-record decision of the `savePostedJobs` merge loop
(posted-jobs-manager-v2.js:629-657) for a memory record `m` against the
disk record `d` of the same id: memory strictly newer → take the memory
copy; equal timestamps and a non-empty memory `discordPosts` → merge
the channel maps into the **disk** record in place
(`{...existing.discordPosts, ...job.discordPosts}`, memory entries
winning per channel, all other disk fields kept); disk newer (or the
memory channel map empty) → keep the disk record. -/
def mergeInto (m d : JobRecord) : JobRecord :=
  if d.postedToDiscord < m.postedToDiscord then m
  else if d.postedToDiscord = m.postedToDiscord then
    if m.discordPosts.isEmpty then d
    else { d with
           discordPosts :=
             m.discordPosts ++
               d.discordPosts.filter
                 (fun cd => !(m.discordPosts.any (fun cd2 => cd2.1 == cd.1))) }
  else d

/-- One step of the merge loop: rewrite the disk record matching the
memory record's id with `mergeInto`, or append a record new to the
map. -/
def mergeRecord (acc : List JobRecord) (m : JobRecord) : List JobRecord :=
  match acc.find? (fun d => d.id == m.id) with
  | none => acc ++ [m]
  | some _ => acc.map (fun d => if d.id == m.id then mergeInto m d else d)

/-- The full merge of the cached memory snapshot into the freshly
reloaded disk records. -/
def mergeJobs (memoryJobs diskJobs : List JobRecord) : List JobRecord :=
  memoryJobs.foldl mergeRecord diskJobs

/-- The state produced by `savePostedJobs` up to the physical write:
merge the memory snapshot with the reloaded disk records, then run
`archiveOldJobs` on the merged result. -/
def savePostedJobsData (awDays now : Nat) (st : ManagerState)
    (diskJobs : List JobRecord) : ManagerState :=
  archiveOldJobsM awDays now
    { st with data := { st.data with jobs := mergeJobs st.data.jobs diskJobs } }

/-- Outcome of a checked save: the persisted state, or a fatal abort of
the whole process with a non-zero exit status (`process.exit(1)` in the
catch-all of `savePostedJobs`). -/
inductive SaveResult where
  | ok (persisted : ManagerState)
  | fatalAbort (exitCode : Nat)
deriving DecidableEq

/-- `savePostedJobs()` (posted-jobs-manager-v2.js:589-704) with its
write verification: after merging and archiving, the file is written
atomically and read back; `readBack` is the job count the read-back
observes, or `none` when the write or read threw. A thrown verification
mismatch and any other error reach the catch block, which exits the
process with status 1. -/
def savePostedJobsM (awDays now : Nat) (st : ManagerState)
    (diskJobs : List JobRecord) (readBack : Option Nat) : SaveResult :=
  let final := savePostedJobsData awDays now st diskJobs
  match readBack with
  | none => .fatalAbort 1
  | some k => if k = final.data.jobs.length then .ok final else .fatalAbort 1

/-- Every persisted record: the active database followed by the monthly
archive files. -/
def archFlatten : List (Nat × List JobRecord) → List JobRecord
  | [] => []
  | p :: rest => p.2 ++ archFlatten rest

/-- All records persisted by the manager, active and archived. -/
def allRecords (st : ManagerState) : List JobRecord :=
  st.data.jobs ++ archFlatten st.archiveFiles

/-- The `instanceNumber` values of a jobId across active and archived
storage combined. -/
def jobNumbersAll (jid : String) (st : ManagerState) : List Nat :=
  ((allRecords st).filter (fun j => j.jobId == jid)).map (fun j => j.instanceNumber)

/-- The `instanceNumber` values of a jobId in the active database
alone. -/
def jobNumbersActive (jid : String) (db : Database) : List Nat :=
  (db.jobs.filter (fun j => j.jobId == jid)).map (fun j => j.instanceNumber)

/-- One manager operation of a session. -/
inductive MOp where
  | markPosted (now : Nat) (jobId : String) (jd : JobData) (threadId : Option String)
  | markChannel (now : Nat) (jd : JobData) (messageId channelId channelType : String)
      (preNum : Option Nat)
  | archive (now : Nat)
  | nextNum (channelId : String)
deriving DecidableEq

/-- Whether an operation is an `archiveOldJobs` run. -/
def isArchiveOp : MOp → Bool
  | .archive _ => true
  | _ => false

/-- Apply one operation to the manager state. -/
def stepM (awDays : Nat) (st : ManagerState) : MOp → ManagerState
  | .markPosted now jobId jd tid => { st with data := markAsPosted st.data now jobId jd tid }
  | .markChannel now jd mid cid ctype pre =>
    (markAsPostedToChannel awDays st now jd mid cid ctype pre).2
  | .archive now => archiveOldJobsM awDays now st
  | .nextNum c => (getChannelJobNumber c st).2

/-- Apply a sequence of operations in order. -/
def runM (awDays : Nat) (ops : List MOp) (st : ManagerState) : ManagerState :=
  ops.foldl (stepM awDays) st

/-- A fresh manager over an empty database with no archives. -/
def initialManagerState (awDays : Nat) : ManagerState :=
  { data := createEmptyDatabase awDays 0
    sessionChannelCounters := []
    archiveChannelCounts := []
    archiveFiles := [] }

end JobsAggregator

namespace JobsAggregator

/-! ## Association-list lemmas -/

theorem alookup_aerase_self {α : Type} (k : String) (l : List (String × α)) :
    alookup k (aerase k l) = none := by
  induction l with
  | nil => rfl
  | cons p rest ih =>
    obtain ⟨k', v⟩ := p
    by_cases h : k' = k
    · simpa [aerase, h] using ih
    · simpa [aerase, alookup, h] using ih

theorem alookup_aerase_ne {α : Type} {g k : String} (h : k ≠ g) (l : List (String × α)) :
    alookup g (aerase k l) = alookup g l := by
  induction l with
  | nil => rfl
  | cons p rest ih =>
    obtain ⟨k', v⟩ := p
    by_cases hk : k' = k
    · subst hk
      simp [aerase, alookup, h, ih]
    · simp [aerase, alookup, hk, ih]

theorem alookup_aset_self {α : Type} (k : String) (v : α) (l : List (String × α)) :
    alookup k (aset k v l) = some v := by
  simp [aset, alookup]

theorem alookup_aset_ne {α : Type} {g k : String} (h : k ≠ g) (v : α)
    (l : List (String × α)) :
    alookup g (aset k v l) = alookup g l := by
  simp [aset, alookup, h, alookup_aerase_ne h]

theorem alookup_filter_keep {α : Type} {p : String × α → Bool} {l : List (String × α)}
    {k : String} {t : α} (h : alookup k l = some t) (hp : p (k, t) = true) :
    alookup k (l.filter p) = some t := by
  induction l with
  | nil => simp [alookup] at h
  | cons q rest ih =>
    obtain ⟨k', t'⟩ := q
    by_cases hk : k' = k
    · simp only [alookup, if_pos hk] at h
      obtain rfl := Option.some.inj h
      subst hk
      simp [List.filter, hp, alookup]
    · simp only [alookup, if_neg hk] at h
      by_cases hq : p (k', t') = true
      · simp [List.filter, hq, alookup, hk, ih h]
      · simp only [List.filter, Bool.not_eq_true] at hq ⊢
        simp [hq, ih h]

theorem alookup_filter_none {α : Type} {p : String × α → Bool} {l : List (String × α)}
    {k : String} (h : ∀ t, (k, t) ∈ l → p (k, t) = false) :
    alookup k (l.filter p) = none := by
  induction l with
  | nil => rfl
  | cons q rest ih =>
    obtain ⟨k', t'⟩ := q
    have hrest : ∀ t, (k, t) ∈ rest → p (k, t) = false := fun t ht => h t (by simp [ht])
    by_cases hk : k' = k
    · subst hk
      have : p (k', t') = false := h t' (by simp)
      simp [List.filter, this, ih hrest]
    · by_cases hq : p (k', t') = true
      · simp [List.filter, hq, alookup, hk, ih hrest]
      · simp only [List.filter, Bool.not_eq_true] at hq ⊢
        simp [hq, ih hrest]

theorem alookup_append_left {α : Type} {k : String} {v : α} {l1 : List (String × α)}
    (l2 : List (String × α)) (h : alookup k l1 = some v) :
    alookup k (l1 ++ l2) = some v := by
  induction l1 with
  | nil => simp [alookup] at h
  | cons p rest ih =>
    obtain ⟨k', v'⟩ := p
    by_cases hk : k' = k
    · simp only [alookup, if_pos hk] at h
      simp [alookup, hk, h]
    · simp only [alookup, if_neg hk] at h
      simp [alookup, hk, ih h]

theorem alookup_append_right {α : Type} {k : String} {l1 : List (String × α)}
    (l2 : List (String × α)) (h : alookup k l1 = none) :
    alookup k (l1 ++ l2) = alookup k l2 := by
  induction l1 with
  | nil => rfl
  | cons p rest ih =>
    obtain ⟨k', v'⟩ := p
    by_cases hk : k' = k
    · simp [alookup, hk] at h
    · simp only [alookup, if_neg hk] at h
      simp [alookup, hk, ih h]

theorem any_fst_false_of_alookup_none {α : Type} {k : String} {l : List (String × α)}
    (h : alookup k l = none) :
    l.any (fun p => p.1 == k) = false := by
  induction l with
  | nil => rfl
  | cons p rest ih =>
    obtain ⟨k', v'⟩ := p
    by_cases hk : k' = k
    · simp [alookup, hk] at h
    · simp only [alookup, if_neg hk] at h
      simp [hk, ih h]

theorem isEmpty_false_of_alookup {α : Type} {k : String} {v : α} {l : List (String × α)}
    (h : alookup k l = some v) : l.isEmpty = false := by
  cases l with
  | nil => simp [alookup] at h
  | cons p rest => rfl

theorem klookup_kerase_self {α : Type} (k : Nat) (l : List (Nat × α)) :
    klookup k (kerase k l) = none := by
  induction l with
  | nil => rfl
  | cons p rest ih =>
    obtain ⟨k', v⟩ := p
    by_cases h : k' = k
    · simpa [kerase, h] using ih
    · simpa [kerase, klookup, h] using ih

theorem klookup_kerase_ne {α : Type} {g k : Nat} (h : k ≠ g) (l : List (Nat × α)) :
    klookup g (kerase k l) = klookup g l := by
  induction l with
  | nil => rfl
  | cons p rest ih =>
    obtain ⟨k', v⟩ := p
    by_cases hk : k' = k
    · subst hk
      simp [kerase, klookup, h, ih]
    · simp [kerase, klookup, hk, ih]

theorem klookup_kset_self {α : Type} (k : Nat) (v : α) (l : List (Nat × α)) :
    klookup k (kset k v l) = some v := by
  simp [kset, klookup]

theorem klookup_kset_ne {α : Type} {g k : Nat} (h : k ≠ g) (v : α)
    (l : List (Nat × α)) :
    klookup g (kset k v l) = klookup g l := by
  simp [kset, klookup, h, klookup_kerase_ne h]

theorem find?_of_filter_cons {α : Type} {p : α → Bool} {l : List α} {b : α} {t : List α}
    (h : l.filter p = b :: t) : l.find? p = some b := by
  induction l generalizing t with
  | nil => simp at h
  | cons x rest ih =>
    by_cases hx : p x = true
    · rw [List.filter_cons_of_pos hx] at h
      rw [List.find?_cons_of_pos _ hx]
      exact congrArg some (List.cons.inj h).1
    · rw [List.filter_cons_of_neg (by simpa using hx)] at h
      rw [List.find?_cons_of_neg _ hx]
      exact ih h

theorem filter_map_of_pres {α : Type} (p : α → Bool) (g : α → α) (l : List α)
    (h1 : ∀ a ∈ l, p (g a) = p a) :
    (l.map g).filter p = (l.filter p).map g := by
  induction l with
  | nil => rfl
  | cons x rest ih =>
    have hx := h1 x (by simp)
    have hrest : ∀ a ∈ rest, p (g a) = p a := fun a ha => h1 a (by simp [ha])
    by_cases hp : p x = true
    · simp only [List.map_cons, List.filter_cons_of_pos (hx.trans hp),
        List.filter_cons_of_pos hp, List.map_cons, ih hrest]
    · have hp' : p x = false := by simpa using hp
      have hgx : ¬ p (g x) = true := by simp [hx.trans hp']
      simp only [List.map_cons, List.filter_cons_of_neg hgx,
        List.filter_cons_of_neg hp, ih hrest]

theorem eq_of_mem_of_filter_singleton {α : Type} {p : α → Bool} {l : List α} {e y : α}
    (h : l.filter p = [e]) (hy : y ∈ l) (hpy : p y = true) : y = e := by
  have : y ∈ l.filter p := List.mem_filter.mpr ⟨hy, hpy⟩
  rw [h] at this
  simpa using this

theorem mem_of_filter_singleton {α : Type} {p : α → Bool} {l : List α} {e : α}
    (h : l.filter p = [e]) : e ∈ l ∧ p e = true := by
  have : e ∈ l.filter p := by rw [h]; simp
  exact List.mem_filter.mp this

/-! ## Claim theorems: Global Delivery Ledger and loaders -/

/-- **C8**: Global Delivery Ledger strict TTL. After `markAsPosted`
records fingerprint `F` at time `t` (TTL = 14 days), `hasBeenPosted F`
returns `true` at day 13 and `false` at day 15; the check never
refreshes or alters any surviving entry (every entry of the post-check
store is an unchanged entry of the pre-check store); a fingerprint with
no entry yields `false`. -/
theorem global_ledger_strict_ttl :
    (∀ (st : GStore) (t : Nat) (f jobId repo ch mid : String),
      (GlobalDedupeManager.hasBeenPosted
        (GlobalDedupeManager.markAsPosted st t f jobId repo ch mid)
        (t + 13 * msPerDay) f).1 = true
      ∧ (GlobalDedupeManager.hasBeenPosted
          (GlobalDedupeManager.markAsPosted st t f jobId repo ch mid)
          (t + 15 * msPerDay) f).1 = false)
    ∧ (∀ (st : GStore) (now : Nat) (f g : String) (e : GEntry),
        alookup g (GlobalDedupeManager.hasBeenPosted st now f).2.fingerprints = some e →
        alookup g st.fingerprints = some e)
    ∧ (∀ (st : GStore) (now : Nat) (f : String),
        alookup f st.fingerprints = none →
        (GlobalDedupeManager.hasBeenPosted st now f).1 = false) := by
  refine ⟨?_, ?_, ?_⟩
  · intro st t f jobId repo ch mid
    have hl : alookup f (GlobalDedupeManager.markAsPosted st t f jobId repo ch mid).fingerprints
        = some ⟨jobId, repo, ch, mid, t⟩ := alookup_aset_self f _ st.fingerprints
    constructor
    · have h13 : ¬ GlobalDedupeManager.TTL_DAYS * msPerDay < 13 * msPerDay := by
        decide
      simp [GlobalDedupeManager.hasBeenPosted, hl, h13]
    · have h15 : GlobalDedupeManager.TTL_DAYS * msPerDay < 15 * msPerDay := by
        decide
      simp [GlobalDedupeManager.hasBeenPosted, hl, h15]
  · intro st now f g e h
    unfold GlobalDedupeManager.hasBeenPosted at h
    cases hf : alookup f st.fingerprints with
    | none => simpa [hf] using h
    | some e' =>
      by_cases hexp : GlobalDedupeManager.TTL_DAYS * msPerDay < now - e'.postedAt
      · simp only [hf, if_pos hexp] at h
        by_cases hg : g = f
        · subst hg
          rw [alookup_aerase_self] at h
          exact absurd h (by simp)
        · rwa [alookup_aerase_ne (fun hc => hg hc.symm)] at h
      · simpa [hf, hexp] using h
  · intro st now f h
    simp [GlobalDedupeManager.hasBeenPosted, h]

theorem global_ledger_strict_ttl_witness :
    alookup "g" (GStore.fingerprints ⟨1, 0, [("g", ⟨"j", "r", "c", "m", 0⟩)]⟩) =
      some ⟨"j", "r", "c", "m", 0⟩
    ∧ (GlobalDedupeManager.hasBeenPosted ⟨1, 0, []⟩ 5 "f").1 = false := by
  constructor
  · exact global_ledger_strict_ttl.2.1 ⟨1, 0, [("g", ⟨"j", "r", "c", "m", 0⟩)]⟩ 3 "g" "g"
      ⟨"j", "r", "c", "m", 0⟩ (by decide)
  · exact global_ledger_strict_ttl.2.2 ⟨1, 0, []⟩ 5 "f" (by decide)

/-- **C9**: Corrupt-state fallback. For each of the three persisted
stores — the Rolling Dedupe Store (`loadDedupeStore`), the Posting
Ledger (`loadPostedJobs`) and the Global Delivery Ledger
(`GlobalDedupeManager.loadStore`) — loading a malformed or unreadable
file (and likewise a missing one, or for the ledger an unknown format)
returns the empty store/database; the loaders are total functions, so
the process continues (non-fatal). -/
theorem corrupt_state_fallback_empty :
    (∀ now : Nat,
      loadDedupeStore now .corrupt = ⟨[], []⟩
      ∧ loadDedupeStore now .missing = ⟨[], []⟩
      ∧ (loadDedupeStore now .corrupt).ids = []
      ∧ (loadDedupeStore now .corrupt).fingerprints = [])
    ∧ (∀ awDays now : Nat,
      loadPostedJobs awDays now .corrupt = createEmptyDatabase awDays now
      ∧ loadPostedJobs awDays now .missing = createEmptyDatabase awDays now
      ∧ loadPostedJobs awDays now (.valid .unknownFormat) = createEmptyDatabase awDays now
      ∧ (loadPostedJobs awDays now .corrupt).jobs = [])
    ∧ (∀ now : Nat,
      (GlobalDedupeManager.loadStore .corrupt now).fingerprints = []
      ∧ (GlobalDedupeManager.loadStore .missing now).fingerprints = []) := by
  exact ⟨fun now => ⟨rfl, rfl, rfl, rfl⟩, fun awDays now => ⟨rfl, rfl, rfl, rfl⟩,
    fun now => ⟨rfl, rfl⟩⟩

/-! ## Claim theorems: Posting Ledger save verification -/

/-- **C5**: Fatal write verification. In `savePostedJobs`, a write/read
failure (`readBack = none`) aborts with exit status 1; a read-back
instance count different from the intended count aborts with exit
status 1; a successful save requires the read-back count to equal the
intended count exactly and persists exactly the merged-and-archived
state; and every abort carries a non-zero exit status — the save never
completes with a mismatched ledger. -/
theorem save_write_verification_fatal :
    (∀ (awDays now : Nat) (st : ManagerState) (diskJobs : List JobRecord),
      savePostedJobsM awDays now st diskJobs none = .fatalAbort 1)
    ∧ (∀ (awDays now : Nat) (st : ManagerState) (diskJobs : List JobRecord) (k : Nat),
      k ≠ (savePostedJobsData awDays now st diskJobs).data.jobs.length →
      savePostedJobsM awDays now st diskJobs (some k) = .fatalAbort 1)
    ∧ (∀ (awDays now : Nat) (st : ManagerState) (diskJobs : List JobRecord)
        (k : Nat) (out : ManagerState),
      savePostedJobsM awDays now st diskJobs (some k) = .ok out →
      k = (savePostedJobsData awDays now st diskJobs).data.jobs.length
        ∧ out = savePostedJobsData awDays now st diskJobs)
    ∧ (∀ (awDays now : Nat) (st : ManagerState) (diskJobs : List JobRecord)
        (readBack : Option Nat) (c : Nat),
      savePostedJobsM awDays now st diskJobs readBack = .fatalAbort c → c ≠ 0) := by
  refine ⟨?_, ?_, ?_, ?_⟩
  · intro awDays now st diskJobs
    rfl
  · intro awDays now st diskJobs k hk
    simp [savePostedJobsM, hk]
  · intro awDays now st diskJobs k out h
    by_cases hk : k = (savePostedJobsData awDays now st diskJobs).data.jobs.length
    · refine ⟨hk, ?_⟩
      simp only [savePostedJobsM, if_pos hk] at h
      exact (SaveResult.ok.inj h).symm
    · simp [savePostedJobsM, hk] at h
  · intro awDays now st diskJobs readBack c h
    cases readBack with
    | none =>
      simp only [savePostedJobsM] at h
      have h1 : (1 : Nat) = c := by simpa using h
      omega
    | some k =>
      by_cases hk : k = (savePostedJobsData awDays now st diskJobs).data.jobs.length
      · simp [savePostedJobsM, hk] at h
      · simp only [savePostedJobsM, if_neg hk] at h
        have h1 : (1 : Nat) = c := by simpa using h
        omega

theorem save_write_verification_fatal_witness :
    savePostedJobsM 7 0 (initialManagerState 7) [] none = .fatalAbort 1
    ∧ savePostedJobsM 7 0 (initialManagerState 7) [] (some 5) = .fatalAbort 1
    ∧ ((5 : Nat) = (savePostedJobsData 7 0 (initialManagerState 7) []).data.jobs.length → False)
    ∧ (1 : Nat) ≠ 0 := by
  refine ⟨save_write_verification_fatal.1 7 0 (initialManagerState 7) [], ?_, ?_, ?_⟩
  · exact save_write_verification_fatal.2.1 7 0 (initialManagerState 7) [] 5 (by decide)
  · intro h
    exact absurd h (by decide)
  · exact save_write_verification_fatal.2.2.2 7 0 (initialManagerState 7) [] none 1
      (save_write_verification_fatal.1 7 0 (initialManagerState 7) [])

end JobsAggregator

namespace JobsAggregator

/-! ## Claim theorems: Rolling Dedupe Store -/

/-- **C6** (amended): TTL timing of the Rolling Dedupe Store. (i) An
entry recorded at time `T` whose job is re-checked at `T + TTL − 1`
(the id hit refreshes its timestamp) is still present after the cleanup
run at `T + 2·TTL − 2`. (ii) Eviction is strict — `cleanupOldEntries`
deletes exactly the keys whose stored timestamp is **strictly** older
than TTL relative to now — so a never-re-checked entry recorded at `T`
is still present after the cleanup run at exactly `T + TTL`, and (iii)
is removed by any cleanup run strictly later (e.g. at `T + TTL + 1`). -/
theorem rolling_store_sliding_ttl :
    (∀ (st : DedupeStore) (j : Job) (T ttl : Nat), 1 ≤ ttl →
      alookup j.id st.ids = some T →
      alookup j.id (cleanupOldEntries ttl (T + 2 * ttl - 2)
          (deduplicateJobs ttl (T + ttl - 1) [j] st).2).ids = some (T + ttl - 1))
    ∧ (∀ (st : DedupeStore) (k : String) (T ttl : Nat),
      alookup k st.ids = some T →
      alookup k (cleanupOldEntries ttl (T + ttl) st).ids = some T)
    ∧ (∀ (st : DedupeStore) (k : String) (T ttl d : Nat), 1 ≤ d →
      (∀ t, (k, t) ∈ st.ids → t = T) →
      alookup k (cleanupOldEntries ttl (T + ttl + d) st).ids = none) := by
  refine ⟨?_, ?_, ?_⟩
  · intro st j T ttl httl hrec
    have h1 : alookup j.id (cleanupOldEntries ttl (T + ttl - 1) st).ids = some T := by
      simp only [cleanupOldEntries]
      exact alookup_filter_keep hrec (by simp only [decide_eq_true_eq]; omega)
    have hhit : (alookup j.id (cleanupOldEntries ttl (T + ttl - 1) st).ids).isSome = true := by
      simp [h1]
    have h2 : (deduplicateJobs ttl (T + ttl - 1) [j] st).2.ids
        = aset j.id (T + ttl - 1) (cleanupOldEntries ttl (T + ttl - 1) st).ids := by
      simp [deduplicateJobs, processJobs, hhit]
    have h3 : alookup j.id (deduplicateJobs ttl (T + ttl - 1) [j] st).2.ids
        = some (T + ttl - 1) := by
      rw [h2]
      exact alookup_aset_self _ _ _
    simp only [cleanupOldEntries]
    exact alookup_filter_keep h3 (by simp only [decide_eq_true_eq]; omega)
  · intro st k T ttl hrec
    simp only [cleanupOldEntries]
    exact alookup_filter_keep hrec (by simp only [decide_eq_true_eq]; omega)
  · intro st k T ttl d hd hall
    simp only [cleanupOldEntries]
    refine alookup_filter_none (fun t ht => ?_)
    have hT := hall t ht
    subst hT
    simp only [decide_eq_false_iff_not, not_not]
    omega

theorem rolling_store_sliding_ttl_witness :
    (1 ≤ DEDUPE_TTL_MS
      ∧ alookup "k" (cleanupOldEntries DEDUPE_TTL_MS (0 + 2 * DEDUPE_TTL_MS - 2)
          (deduplicateJobs DEDUPE_TTL_MS (0 + DEDUPE_TTL_MS - 1)
            [⟨"k", "p", "", "", "", "", none⟩] ⟨[("k", 0)], []⟩).2).ids
        = some (0 + DEDUPE_TTL_MS - 1))
    ∧ alookup "k" (cleanupOldEntries DEDUPE_TTL_MS (0 + DEDUPE_TTL_MS) ⟨[("k", 0)], []⟩).ids
        = some 0
    ∧ alookup "k" (cleanupOldEntries DEDUPE_TTL_MS (0 + DEDUPE_TTL_MS + 1) ⟨[("k", 0)], []⟩).ids
        = none := by
  refine ⟨⟨by decide, ?_⟩, ?_, ?_⟩
  · exact rolling_store_sliding_ttl.1 ⟨[("k", 0)], []⟩ ⟨"k", "p", "", "", "", "", none⟩ 0
      DEDUPE_TTL_MS (by decide) (by decide)
  · exact rolling_store_sliding_ttl.2.1 ⟨[("k", 0)], []⟩ "k" 0 DEDUPE_TTL_MS (by decide)
  · exact rolling_store_sliding_ttl.2.2 ⟨[("k", 0)], []⟩ "k" 0 DEDUPE_TTL_MS 1 (by decide)
      (by intro t ht; simpa using ht)

/-- **C6 counterexample**: the claim asserts that an entry recorded at
`T` and never re-checked "is evicted by the cleanup run at time
T+TTL". In the source, `cleanupOldEntries` deletes only timestamps
strictly below `now − TTL_MS`; at `now = T + TTL` the entry's age
equals the TTL exactly, so the key `"k"` recorded at `T = 0` is still
present after the cleanup run at `0 + DEDUPE_TTL_MS` — the claimed
eviction does not happen. -/
theorem rolling_store_ttl_counterexample :
    alookup "k" (cleanupOldEntries DEDUPE_TTL_MS (0 + DEDUPE_TTL_MS) ⟨[("k", 0)], []⟩).ids
      = some 0 := by
  decide

/-- **C7** (amended): per-job classification of the cited 7-day
`deduplicateJobs` loop, which checks the id key **first**: (i) an id
hit classifies the job as a duplicate (excluded from the unique
output) and refreshes only the id timestamp — the fingerprint map is
left entirely unchanged, even when the fingerprint also matches; (ii)
a fingerprint hit with no id hit refreshes only the fingerprint and
leaves the id map unchanged; (iii) with neither key present the job is
net-new: it is included in the unique output and both keys are
recorded at the current time. For the repository's 14-day
active-window variant of the loop: (iv) a job seen by id and/or
fingerprint is still included in the output and each matching key is
refreshed; (v) a net-new job records both keys and is included. -/
theorem check_and_mark_classification :
    (∀ (st : DedupeStore) (now : Nat) (j : Job),
      (alookup j.id st.ids).isSome = true →
      (processJobs now [j] st).1 = []
      ∧ alookup j.id (processJobs now [j] st).2.ids = some now
      ∧ (processJobs now [j] st).2.fingerprints = st.fingerprints)
    ∧ (∀ (st : DedupeStore) (now : Nat) (j : Job),
      alookup j.id st.ids = none →
      (alookup j.fingerprint st.fingerprints).isSome = true →
      (processJobs now [j] st).1 = []
      ∧ alookup j.fingerprint (processJobs now [j] st).2.fingerprints = some now
      ∧ (processJobs now [j] st).2.ids = st.ids)
    ∧ (∀ (st : DedupeStore) (now : Nat) (j : Job),
      alookup j.id st.ids = none →
      alookup j.fingerprint st.fingerprints = none →
      (processJobs now [j] st).1 = [j]
      ∧ alookup j.id (processJobs now [j] st).2.ids = some now
      ∧ alookup j.fingerprint (processJobs now [j] st).2.fingerprints = some now)
    ∧ (∀ (st : DedupeStore) (now : Nat) (j : Job),
      (processJobsAW now [j] st).1 = [j]
      ∧ ((alookup j.id st.ids).isSome = true →
          alookup j.id (processJobsAW now [j] st).2.ids = some now)
      ∧ ((alookup j.fingerprint st.fingerprints).isSome = true →
          alookup j.fingerprint (processJobsAW now [j] st).2.fingerprints = some now))
    ∧ (∀ (st : DedupeStore) (now : Nat) (j : Job),
      alookup j.id st.ids = none →
      alookup j.fingerprint st.fingerprints = none →
      alookup j.id (processJobsAW now [j] st).2.ids = some now
      ∧ alookup j.fingerprint (processJobsAW now [j] st).2.fingerprints = some now) := by
  refine ⟨?_, ?_, ?_, ?_, ?_⟩
  · intro st now j hid
    refine ⟨?_, ?_, ?_⟩ <;> simp [processJobs, hid, alookup_aset_self]
  · intro st now j hid hfp
    refine ⟨?_, ?_, ?_⟩ <;> simp [processJobs, hid, hfp, alookup_aset_self]
  · intro st now j hid hfp
    refine ⟨?_, ?_, ?_⟩ <;> simp [processJobs, hid, hfp, alookup_aset_self]
  · intro st now j
    refine ⟨by simp [processJobsAW], ?_, ?_⟩
    · intro hid
      simp [processJobsAW, hid, alookup_aset_self]
    · intro hfp
      simp [processJobsAW, hfp, alookup_aset_self]
  · intro st now j hid hfp
    constructor <;> simp [processJobsAW, hid, hfp, alookup_aset_self]

theorem check_and_mark_classification_witness :
    ((alookup "a" (DedupeStore.ids ⟨[("a", 0)], []⟩)).isSome = true
      ∧ (processJobs 9 [⟨"a", "f", "", "", "", "", none⟩] ⟨[("a", 0)], []⟩).1 = [])
    ∧ (alookup "x" (DedupeStore.ids ⟨[], [("f", 0)]⟩) = none
      ∧ alookup "f" (processJobs 9 [⟨"x", "f", "", "", "", "", none⟩]
          ⟨[], [("f", 0)]⟩).2.fingerprints = some 9)
    ∧ (processJobs 9 [⟨"x", "f", "", "", "", "", none⟩] (⟨[], []⟩ : DedupeStore)).1
        = [⟨"x", "f", "", "", "", "", none⟩]
    ∧ (processJobsAW 9 [⟨"a", "f", "", "", "", "", none⟩]
        (⟨[("a", 0)], [("f", 0)]⟩ : DedupeStore)).1 = [⟨"a", "f", "", "", "", "", none⟩]
    ∧ alookup "x" (processJobsAW 9 [⟨"x", "f", "", "", "", "", none⟩]
        (⟨[], []⟩ : DedupeStore)).2.ids = some 9 := by
  refine ⟨⟨by decide, ?_⟩, ⟨by decide, ?_⟩, ?_, ?_, ?_⟩
  · exact (check_and_mark_classification.1 ⟨[("a", 0)], []⟩ 9
      ⟨"a", "f", "", "", "", "", none⟩ (by decide)).1
  · exact (check_and_mark_classification.2.1 ⟨[], [("f", 0)]⟩ 9
      ⟨"x", "f", "", "", "", "", none⟩ (by decide) (by decide)).2.1
  · exact (check_and_mark_classification.2.2.1 ⟨[], []⟩ 9
      ⟨"x", "f", "", "", "", "", none⟩ (by decide) (by decide)).1
  · exact (check_and_mark_classification.2.2.2.1 ⟨[("a", 0)], [("f", 0)]⟩ 9
      ⟨"a", "f", "", "", "", "", none⟩).1
  · exact (check_and_mark_classification.2.2.2.2 ⟨[], []⟩ 9
      ⟨"x", "f", "", "", "", "", none⟩ (by decide) (by decide)).1

/-- **C7 counterexample**: the claim asserts that on a duplicate hit
"every key that matches, id and/or fingerprint, is refreshed to the
current time". In the cited loop the id check `continue`s before the
fingerprint check: with both the id `"a"` and the fingerprint `"f"`
present (both stamped 0), processing at time 9 classifies the job as a
duplicate (empty unique output), yet the matching fingerprint key keeps
timestamp 0 — it is not refreshed to 9. -/
theorem check_and_mark_counterexample :
    ((alookup "f" (DedupeStore.fingerprints ⟨[("a", 0)], [("f", 0)]⟩)).isSome = true)
    ∧ (processJobs 9 [⟨"a", "f", "", "", "", "", none⟩] ⟨[("a", 0)], [("f", 0)]⟩).1 = []
    ∧ alookup "f" (processJobs 9 [⟨"a", "f", "", "", "", "", none⟩]
        ⟨[("a", 0)], [("f", 0)]⟩).2.fingerprints = some 0 := by
  decide

/-! ## Claim theorems: channel-level duplicate check -/

/-- **C10**: `hasBeenPostedToChannel` consults only active-window
records: whenever no stored record matching the job under either the
SHA256 content-hash id or the URL-based id lies within the active
window, the check returns `false` — regardless of any older
(outside-window) record carrying a delivery entry for that exact
channel. -/
theorem channel_check_active_window_only :
    ∀ (awDays now : Nat) (db : Database) (jd : JobData) (channelId : String),
      (∀ j ∈ db.jobs, (j.jobId = jd.sha256Id ∨ some j.jobId = jd.urlId) →
        withinWindowJ awDays now j = false) →
      hasBeenPostedToChannel awDays db now jd channelId = false := by
  intro awDays now db jd channelId h
  have h1 : db.jobs.find? (fun j => j.jobId == jd.sha256Id && withinWindowJ awDays now j)
      = none := by
    refine List.find?_eq_none.mpr (fun j hj => ?_)
    by_cases hs : j.jobId = jd.sha256Id
    · simp [hs, h j hj (Or.inl hs)]
    · simp [hs]
  cases hu : jd.urlId with
  | none => simp [hasBeenPostedToChannel, h1, hu]
  | some uid =>
    have h2 : db.jobs.find? (fun j => j.jobId == uid && withinWindowJ awDays now j)
        = none := by
      refine List.find?_eq_none.mpr (fun j hj => ?_)
      by_cases hs : j.jobId = uid
      · simp [hs, h j hj (Or.inr (by rw [hs, hu]))]
      · simp [hs]
    simp [hasBeenPostedToChannel, h1, hu, h2]

theorem channel_check_active_window_only_witness :
    (∀ j ∈ (Database.jobs ⟨2, 0,
        [⟨.derived "h1" 0 1, "h1", "Acme", "Engineer", 0, none, none, none,
          [("tech", ⟨"m1", "public", 0, 1⟩)], 1, none, none, none⟩], ⟨1, 7, []⟩⟩),
      (j.jobId = "h1" ∨ some j.jobId = (none : Option String)) →
        withinWindowJ 7 (10 * msPerDay) j = false)
    ∧ hasBeenPostedToChannel 7
        ⟨2, 0, [⟨.derived "h1" 0 1, "h1", "Acme", "Engineer", 0, none, none, none,
          [("tech", ⟨"m1", "public", 0, 1⟩)], 1, none, none, none⟩], ⟨1, 7, []⟩⟩
        (10 * msPerDay)
        ⟨"h1", none, none, none, none, none, none, none, none⟩ "tech" = false := by
  constructor
  · decide
  · exact channel_check_active_window_only 7 (10 * msPerDay)
      ⟨2, 0, [⟨.derived "h1" 0 1, "h1", "Acme", "Engineer", 0, none, none, none,
        [("tech", ⟨"m1", "public", 0, 1⟩)], 1, none, none, none⟩], ⟨1, 7, []⟩⟩
      ⟨"h1", none, none, none, none, none, none, none, none⟩ "tech" (by decide)

end JobsAggregator

namespace JobsAggregator

/-! ## Claim theorems: reopening decision -/

/-- **C2** (amended): the reopening decision of `hasBeenPosted` when
every stored instance of the job lies outside the active window. The
original-post staleness check is **decisive, not merely logged**: (i)
when the earliest reference date (`sourceDate || postedToDiscord`,
minimized over the instances) is more than the hard-coded 7 days old,
the job is denied (`true`) before the sourceDate check is ever
reached — regardless of how fresh the API `sourceDate` is. (ii) Only
when the earliest reference date is within 7 days does the algorithm
reach the sourceDate check; there an API `sourceDate` within the
reopening window allows the job as a reopening (`false`), and an older
`sourceDate` is denied as stale (`true`). -/
theorem reopening_decision_source_date :
    (∀ (awDays rwDays : Nat) (db : Database) (now : Nat) (jobId : String) (jd : JobData),
      (lookupInstances db jobId (some jd)).isEmpty = false →
      (∀ j ∈ lookupInstances db jobId (some jd), withinWindowJ awDays now j = false) →
      (∃ r, ((lookupInstances db jobId (some jd)).map
          (fun j => j.sourceDate.getD j.postedToDiscord)).min? = some r
        ∧ 7 * msPerDay < now - r) →
      hasBeenPosted awDays rwDays db now jobId (some jd) = true)
    ∧ (∀ (awDays rwDays : Nat) (db : Database) (now : Nat) (jobId : String)
        (jd : JobData) (sd : Nat),
      (lookupInstances db jobId (some jd)).isEmpty = false →
      (∀ j ∈ lookupInstances db jobId (some jd), withinWindowJ awDays now j = false) →
      (∃ r, ((lookupInstances db jobId (some jd)).map
          (fun j => j.sourceDate.getD j.postedToDiscord)).min? = some r
        ∧ ¬ 7 * msPerDay < now - r) →
      jd.sourceDate = some sd →
      ((now - sd ≤ rwDays * msPerDay →
          hasBeenPosted awDays rwDays db now jobId (some jd) = false)
        ∧ (¬ now - sd ≤ rwDays * msPerDay →
          hasBeenPosted awDays rwDays db now jobId (some jd) = true))) := by
  constructor
  · intro awDays rwDays db now jobId jd hne hout hex
    obtain ⟨r, hmin, hr⟩ := hex
    have hany : (lookupInstances db jobId (some jd)).any (withinWindowJ awDays now) = false :=
      List.any_eq_false.mpr (fun j hj => by simp [hout j hj])
    simp [hasBeenPosted, hne, hany, hmin, hr]
  · intro awDays rwDays db now jobId jd sd hne hout hex hsd
    obtain ⟨r, hmin, hr⟩ := hex
    have hany : (lookupInstances db jobId (some jd)).any (withinWindowJ awDays now) = false :=
      List.any_eq_false.mpr (fun j hj => by simp [hout j hj])
    constructor
    · intro hle
      simp [hasBeenPosted, hne, hany, hmin, hr, hsd, hle]
    · intro hgt
      simp [hasBeenPosted, hne, hany, hmin, hr, hsd, hgt]

theorem reopening_decision_source_date_witness :
    ((lookupInstances
        ⟨2, 0, [⟨.derived "J1" 0 1, "J1", "Acme", "Engineer", 2 * msPerDay,
          some (4 * msPerDay), none, none, [], 1, none, none, none⟩], ⟨1, 7, []⟩⟩
        "J1"
        (some ⟨"h1", none, none, none, none, some (9 * msPerDay), none, none, none⟩)).isEmpty
      = false)
    ∧ ((10 * msPerDay) - (9 * msPerDay) ≤ 7 * msPerDay →
      hasBeenPosted 7 7
        ⟨2, 0, [⟨.derived "J1" 0 1, "J1", "Acme", "Engineer", 2 * msPerDay,
          some (4 * msPerDay), none, none, [], 1, none, none, none⟩], ⟨1, 7, []⟩⟩
        (10 * msPerDay) "J1"
        (some ⟨"h1", none, none, none, none, some (9 * msPerDay), none, none, none⟩) = false)
    ∧ (¬ (10 * msPerDay) - (1 * msPerDay) ≤ 7 * msPerDay →
      hasBeenPosted 7 7
        ⟨2, 0, [⟨.derived "J1" 0 1, "J1", "Acme", "Engineer", 2 * msPerDay,
          some (4 * msPerDay), none, none, [], 1, none, none, none⟩], ⟨1, 7, []⟩⟩
        (10 * msPerDay) "J1"
        (some ⟨"h1", none, none, none, none, some (1 * msPerDay), none, none, none⟩) = true) := by
  refine ⟨by decide, ?_, ?_⟩
  · exact (reopening_decision_source_date.2 7 7
      ⟨2, 0, [⟨.derived "J1" 0 1, "J1", "Acme", "Engineer", 2 * msPerDay,
        some (4 * msPerDay), none, none, [], 1, none, none, none⟩], ⟨1, 7, []⟩⟩
      (10 * msPerDay) "J1"
      ⟨"h1", none, none, none, none, some (9 * msPerDay), none, none, none⟩
      (9 * msPerDay)
      (by decide) (by decide) ⟨4 * msPerDay, by decide, by decide⟩ rfl).1
  · exact (reopening_decision_source_date.2 7 7
      ⟨2, 0, [⟨.derived "J1" 0 1, "J1", "Acme", "Engineer", 2 * msPerDay,
        some (4 * msPerDay), none, none, [], 1, none, none, none⟩], ⟨1, 7, []⟩⟩
      (10 * msPerDay) "J1"
      ⟨"h1", none, none, none, none, some (1 * msPerDay), none, none, none⟩
      (1 * msPerDay)
      (by decide) (by decide) ⟨4 * msPerDay, by decide, by decide⟩ rfl).2

/-- **C2 counterexample**: the claim's own scenario — instance #1
delivered on day 0 (reference date day 0), checked on day 10 with an
API sourceDate 1 day old (day 9) and a 7-day reopening window — and the
claim expects *allow* (`hasBeenPosted = false`, staleness "only
logged"). The source instead returns `true` (deny): the earliest
reference date is 10 days old, which exceeds the hard-coded 7-day
ceiling at posted-jobs-manager-v2.js:181-184, and that branch `return
true`s before the sourceDate check is reached. -/
theorem reopening_decision_counterexample :
    hasBeenPosted 7 7
      ⟨2, 0, [⟨.derived "J1" 0 1, "J1", "Acme", "Engineer", 0, none, none, none,
        [], 1, none, none, none⟩], ⟨1, 7, []⟩⟩
      (10 * msPerDay) "J1"
      (some ⟨"h1", none, none, none, none, some (9 * msPerDay), none, none, none⟩) = true := by
  decide

end JobsAggregator

namespace JobsAggregator

/-! ## Instance numbering -/

theorem range'_append_singleton (s k : Nat) :
    List.range' s k ++ [s + k] = List.range' s (k + 1) := by
  induction k generalizing s with
  | zero => simp
  | succ n ih =>
    show (s :: List.range' (s + 1) n) ++ [s + (n + 1)] = s :: List.range' (s + 1) (n + 1)
    rw [List.cons_append]
    have hx : s + (n + 1) = (s + 1) + n := by omega
    rw [hx, ih (s + 1)]

theorem gcjn_jobs (c : String) (st : ManagerState) :
    ((getChannelJobNumber c st).2).data.jobs = st.data.jobs := by
  unfold getChannelJobNumber
  cases alookup c st.sessionChannelCounters <;> rfl

theorem numbers_map_pres (jid : String) (g : JobRecord → JobRecord) (l : List JobRecord)
    (hid : ∀ j ∈ l, (g j).jobId = j.jobId)
    (hnum : ∀ j ∈ l, (g j).instanceNumber = j.instanceNumber) :
    ((l.map g).filter (fun j => j.jobId == jid)).map (fun j => j.instanceNumber)
      = (l.filter (fun j => j.jobId == jid)).map (fun j => j.instanceNumber) := by
  rw [filter_map_of_pres _ g l (fun a ha => by simp [hid a ha])]
  rw [List.map_map]
  refine List.map_congr_left (fun a ha => ?_)
  have ha' : a ∈ l := (List.mem_filter.mp ha).1
  simp [hnum a ha']

theorem finishDelivery_numbers (jid : String) (st : ManagerState) (rid : RecordId)
    (now : Nat) (mid cid ctype : String) (pre : Option Nat) :
    jobNumbersActive jid ((finishDelivery st rid now mid cid ctype pre).2).data
      = jobNumbersActive jid st.data := by
  unfold finishDelivery jobNumbersActive
  cases pre with
  | some n =>
    exact numbers_map_pres jid _ st.data.jobs
      (fun j hj => by by_cases h : (j.id == rid) = true <;> simp [h])
      (fun j hj => by by_cases h : (j.id == rid) = true <;> simp [h])
  | none =>
    dsimp only
    rw [gcjn_jobs]
    exact numbers_map_pres jid _ st.data.jobs
      (fun j hj => by by_cases h : (j.id == rid) = true <;> simp [h])
      (fun j hj => by by_cases h : (j.id == rid) = true <;> simp [h])

theorem numbers_append_fresh (jid jobId : String) (jobs : List JobRecord) (r : JobRecord)
    (hrid : r.jobId = jobId)
    (hrnum : r.instanceNumber = (jobs.filter (fun j => j.jobId == jobId)).length + 1)
    (k : Nat)
    (h : (jobs.filter (fun j => j.jobId == jid)).map (fun j => j.instanceNumber)
        = List.range' 1 k) :
    ∃ k', ((jobs ++ [r]).filter (fun j => j.jobId == jid)).map (fun j => j.instanceNumber)
        = List.range' 1 k' := by
  by_cases hj : jobId = jid
  · subst hj
    refine ⟨k + 1, ?_⟩
    rw [List.filter_append, List.map_append]
    have hr : ([r].filter (fun j => j.jobId == jobId)) = [r] := by simp [hrid]
    rw [hr, h]
    have hlen : (jobs.filter (fun j => j.jobId == jobId)).length = k := by
      have hc := congrArg List.length h
      simpa using hc
    have hval : ([r].map (fun j => j.instanceNumber)) = [1 + k] := by
      simp [hrnum, hlen]
      omega
    rw [hval]
    exact range'_append_singleton 1 k
  · refine ⟨k, ?_⟩
    rw [List.filter_append, List.map_append]
    have hr : ([r].filter (fun j => j.jobId == jid)) = [] := by
      simp [hrid]
      simpa using fun hc => hj hc
    rw [hr, h]
    simp

theorem numbers_invariant_step (awDays : Nat) (st : ManagerState) (op : MOp)
    (hop : isArchiveOp op = false)
    (h : ∀ jid, ∃ k, jobNumbersActive jid st.data = List.range' 1 k) :
    ∀ jid, ∃ k, jobNumbersActive jid (stepM awDays st op).data = List.range' 1 k := by
  intro jid
  cases op with
  | markPosted now jobId jd tid =>
    obtain ⟨k, hk⟩ := h jid
    simp only [stepM, jobNumbersActive, markAsPosted] at hk ⊢
    exact numbers_append_fresh jid jobId st.data.jobs _ rfl rfl k hk
  | markChannel now jd mid cid ctype pre =>
    simp only [stepM, markAsPostedToChannel]
    cases hfind : st.data.jobs.find?
        (fun j => j.jobId == jd.sha256Id && withinWindowJ awDays now j) with
    | some r0 =>
      simp only [hfind]
      rw [finishDelivery_numbers]
      exact h jid
    | none =>
      simp only [hfind]
      by_cases hg : (st.data.jobs.any
          (fun j => j.jobId == jd.sha256Id && j.postedToDiscord / msPerDay == now / msPerDay))
          = true
      · rw [if_pos hg]
        exact h jid
      · rw [if_neg hg]
        rw [finishDelivery_numbers]
        obtain ⟨k, hk⟩ := h jid
        simp only [jobNumbersActive] at hk ⊢
        exact numbers_append_fresh jid jd.sha256Id st.data.jobs _ rfl rfl k hk
  | archive t =>
    simp [isArchiveOp] at hop
  | nextNum c =>
    simp only [stepM, jobNumbersActive]
    rw [gcjn_jobs]
    exact h jid

theorem numbers_invariant_run (awDays : Nat) (ops : List MOp) (st : ManagerState)
    (hops : ∀ op ∈ ops, isArchiveOp op = false)
    (h : ∀ jid, ∃ k, jobNumbersActive jid st.data = List.range' 1 k) :
    ∀ jid, ∃ k, jobNumbersActive jid (runM awDays ops st).data = List.range' 1 k := by
  induction ops generalizing st with
  | nil => exact h
  | cons op rest ih =>
    exact ih (stepM awDays st op) (fun o ho => hops o (by simp [ho]))
      (numbers_invariant_step awDays st op (hops op (by simp)) h)

/-- **C3** (amended): instance numbering counts the **active database
only**. (i) `markAsPosted` appends a record whose `instanceNumber` is
the count of records with that `jobId` currently in the active
database plus one — archived instances are never consulted. (ii)
Consequently, over any operation sequence from the empty state that
never runs `archiveOldJobs`, the instance numbers of every `jobId` in
the active database are exactly the gap-free 1, 2, …, k in creation
order; once archiving removes instances, the count restarts and the
combined active+archive numbering can repeat (see the
counterexample). -/
theorem instance_numbering_gap_free :
    (∀ (db : Database) (now : Nat) (jobId : String) (jd : JobData) (tid : Option String),
      ∃ r : JobRecord,
        (markAsPosted db now jobId jd tid).jobs = db.jobs ++ [r]
        ∧ r.jobId = jobId
        ∧ r.instanceNumber = (db.jobs.filter (fun j => j.jobId == jobId)).length + 1)
    ∧ (∀ (awDays : Nat) (ops : List MOp) (jid : String),
      ops.all (fun op => !(isArchiveOp op)) = true →
      ∃ k, jobNumbersActive jid (runM awDays ops (initialManagerState awDays)).data
        = List.range' 1 k) := by
  constructor
  · intro db now jobId jd tid
    exact ⟨_, rfl, rfl, rfl⟩
  · intro awDays ops jid hops
    have hops' : ∀ op ∈ ops, isArchiveOp op = false := by
      intro op ho
      have hx := List.all_eq_true.mp hops op ho
      simpa using hx
    exact numbers_invariant_run awDays ops (initialManagerState awDays) hops'
      (fun j => ⟨0, rfl⟩) jid

theorem instance_numbering_gap_free_witness :
    ([MOp.markPosted 0 "J" ⟨"h", none, none, none, none, none, none, none, none⟩ none,
      MOp.markPosted 1 "J" ⟨"h", none, none, none, none, none, none, none, none⟩ none].all
        (fun op => !(isArchiveOp op)) = true)
    ∧ ∃ k, jobNumbersActive "J"
        (runM 7
          [MOp.markPosted 0 "J" ⟨"h", none, none, none, none, none, none, none, none⟩ none,
           MOp.markPosted 1 "J" ⟨"h", none, none, none, none, none, none, none, none⟩ none]
          (initialManagerState 7)).data = List.range' 1 k := by
  refine ⟨by decide, ?_⟩
  exact instance_numbering_gap_free.2 7
    [MOp.markPosted 0 "J" ⟨"h", none, none, none, none, none, none, none, none⟩ none,
     MOp.markPosted 1 "J" ⟨"h", none, none, none, none, none, none, none, none⟩ none]
    "J" (by decide)

/-- **C3 counterexample**: the claim asserts that across active and
archived storage combined the `instanceNumber`s of a `jobId` are
strictly increasing and gap-free, an instance created after earlier
instances were archived receiving max+1 *counting archived instances*.
In the source, `markAsPosted` numbers a new instance as
(active-database count) + 1. Marking `"J"` at day 0 (instance 1),
archiving at day 10, then marking `"J"` again at day 10 yields a second
instance numbered 1: the combined numbers are [1, 1] — duplicated, not
strictly increasing, and not max+1 counting the archived instance. -/
theorem instance_numbering_counterexample :
    jobNumbersAll "J"
        (runM 7
          [MOp.markPosted 0 "J" ⟨"h", none, none, none, none, none, none, none, none⟩ none,
           MOp.archive (10 * msPerDay),
           MOp.markPosted (10 * msPerDay) "J"
             ⟨"h", none, none, none, none, none, none, none, none⟩ none]
          (initialManagerState 7)) = [1, 1]
    ∧ ¬ (jobNumbersAll "J"
        (runM 7
          [MOp.markPosted 0 "J" ⟨"h", none, none, none, none, none, none, none, none⟩ none,
           MOp.archive (10 * msPerDay),
           MOp.markPosted (10 * msPerDay) "J"
             ⟨"h", none, none, none, none, none, none, none, none⟩ none]
          (initialManagerState 7))).Nodup := by
  constructor
  · decide
  · decide

end JobsAggregator

namespace JobsAggregator

/-! ## Channel counters -/

theorem archive_session (aw now : Nat) (st : ManagerState) :
    (archiveOldJobsM aw now st).sessionChannelCounters = st.sessionChannelCounters := by
  simp only [archiveOldJobsM]
  by_cases h : ((st.data.jobs.filter (fun j => !(withinWindowJ aw now j))).isEmpty = true)
  · rw [if_pos h]
  · rw [if_neg h]

theorem archive_hwm (aw now : Nat) (st : ManagerState) :
    (archiveOldJobsM aw now st).data.metadata.channelJobNumbers
      = st.data.metadata.channelJobNumbers := by
  simp only [archiveOldJobsM]
  by_cases h : ((st.data.jobs.filter (fun j => !(withinWindowJ aw now j))).isEmpty = true)
  · rw [if_pos h]
  · rw [if_neg h]

theorem gcjn_session_self (c : String) (st : ManagerState) :
    alookup c ((getChannelJobNumber c st).2).sessionChannelCounters
      = some (getChannelJobNumber c st).1 := by
  unfold getChannelJobNumber
  cases alookup c st.sessionChannelCounters <;>
    simp [alookup_aset_self]

theorem gcjn_fst_of_some (c : String) (st : ManagerState) {s : Nat}
    (h : alookup c st.sessionChannelCounters = some s) :
    (getChannelJobNumber c st).1 = s + 1 := by
  unfold getChannelJobNumber
  rw [h]

theorem gcjn_session_mono {ch : String} {v : Nat} (c : String) (st : ManagerState)
    (h : alookup ch st.sessionChannelCounters = some v) :
    ∃ v', v ≤ v'
      ∧ alookup ch ((getChannelJobNumber c st).2).sessionChannelCounters = some v' := by
  by_cases hc : c = ch
  · subst hc
    refine ⟨(getChannelJobNumber c st).1, ?_, gcjn_session_self c st⟩
    rw [gcjn_fst_of_some c st h]
    omega
  · refine ⟨v, Nat.le_refl v, ?_⟩
    unfold getChannelJobNumber
    cases hs : alookup c st.sessionChannelCounters with
    | some s =>
      simpa using (alookup_aset_ne hc _ st.sessionChannelCounters).trans h
    | none =>
      simpa using (alookup_aset_ne hc _ st.sessionChannelCounters).trans h

theorem finishDelivery_session_mono {ch : String} {v : Nat} (st : ManagerState)
    (rid : RecordId) (now : Nat) (mid cid ctype : String) (pre : Option Nat)
    (h : alookup ch st.sessionChannelCounters = some v) :
    ∃ v', v ≤ v'
      ∧ alookup ch ((finishDelivery st rid now mid cid ctype pre).2).sessionChannelCounters
        = some v' := by
  unfold finishDelivery
  cases pre with
  | some n => exact ⟨v, Nat.le_refl v, h⟩
  | none =>
    obtain ⟨v', hv, hv'⟩ := gcjn_session_mono cid st h
    exact ⟨v', hv, hv'⟩

theorem step_session_mono (aw : Nat) {ch : String} {v : Nat} (st : ManagerState) (op : MOp)
    (h : alookup ch st.sessionChannelCounters = some v) :
    ∃ v', v ≤ v' ∧ alookup ch ((stepM aw st op).sessionChannelCounters) = some v' := by
  cases op with
  | markPosted now jobId jd tid => exact ⟨v, Nat.le_refl v, h⟩
  | archive t =>
    refine ⟨v, Nat.le_refl v, ?_⟩
    show alookup ch (archiveOldJobsM aw t st).sessionChannelCounters = some v
    rw [archive_session]
    exact h
  | nextNum c => exact gcjn_session_mono c st h
  | markChannel now jd mid cid ctype pre =>
    simp only [stepM, markAsPostedToChannel]
    cases hfind : st.data.jobs.find?
        (fun j => j.jobId == jd.sha256Id && withinWindowJ aw now j) with
    | some r0 =>
      simp only [hfind]
      exact finishDelivery_session_mono st r0.id now mid cid ctype pre h
    | none =>
      simp only [hfind]
      by_cases hg : (st.data.jobs.any
          (fun j => j.jobId == jd.sha256Id && j.postedToDiscord / msPerDay == now / msPerDay))
          = true
      · rw [if_pos hg]
        exact ⟨v, Nat.le_refl v, h⟩
      · rw [if_neg hg]
        exact finishDelivery_session_mono _ _ now mid cid ctype pre h

theorem run_session_mono (aw : Nat) {ch : String} {v : Nat} (ops : List MOp)
    (st : ManagerState)
    (h : alookup ch st.sessionChannelCounters = some v) :
    ∃ v', v ≤ v' ∧ alookup ch ((runM aw ops st).sessionChannelCounters) = some v' := by
  induction ops generalizing st v with
  | nil => exact ⟨v, Nat.le_refl v, h⟩
  | cons op rest ih =>
    obtain ⟨v1, hv1, h1⟩ := step_session_mono aw st op h
    obtain ⟨v2, hv2, h2⟩ := ih (stepM aw st op) h1
    exact ⟨v2, Nat.le_trans hv1 hv2, h2⟩

/-- **C4** (amended): channel counters. (i) Within a manager session
the values issued by `getChannelJobNumber` for a channel strictly
increase: after a call returns `r`, any later call for the same
channel — across any interleaving of posting, delivery and archiving
operations — returns a value strictly greater than `r` (the session
counter only ever increments, and `archiveOldJobs` touches neither the
session counters nor the persisted metadata). (ii) Archiving leaves
the next issued value unchanged whenever the channel's session counter
is initialized or a nonzero high-water-mark is persisted in
`metadata.channelJobNumbers`. The remaining case — first use in a
session with no persisted high-water-mark — reconstructs the seed from
the live active count plus the **constructor-time** archive-count
cache, which archiving does not refresh; there the issued value can
regress below previously issued numbers (see the counterexample). -/
theorem channel_counters_monotonic :
    (∀ (awDays : Nat) (ops : List MOp) (ch : String) (st : ManagerState),
      (getChannelJobNumber ch st).1
        < (getChannelJobNumber ch (runM awDays ops (getChannelJobNumber ch st).2)).1)
    ∧ (∀ (awDays now : Nat) (ch : String) (st : ManagerState),
      ((alookup ch st.sessionChannelCounters).isSome = true
        ∨ (alookup ch st.data.metadata.channelJobNumbers).getD 0 ≠ 0) →
      (getChannelJobNumber ch (archiveOldJobsM awDays now st)).1
        = (getChannelJobNumber ch st).1) := by
  constructor
  · intro awDays ops ch st
    obtain ⟨v, hv, hsess⟩ := run_session_mono awDays ops _ (gcjn_session_self ch st)
    rw [gcjn_fst_of_some ch _ hsess]
    omega
  · intro awDays now ch st h
    cases hs : alookup ch st.sessionChannelCounters with
    | some s =>
      have h1 : alookup ch (archiveOldJobsM awDays now st).sessionChannelCounters = some s := by
        rw [archive_session]
        exact hs
      rw [gcjn_fst_of_some ch _ h1, gcjn_fst_of_some ch _ hs]
    | none =>
      have hm : (alookup ch st.data.metadata.channelJobNumbers).getD 0 ≠ 0 := by
        rcases h with hsome | hm
        · rw [hs] at hsome
          simp at hsome
        · exact hm
      have h1 : alookup ch (archiveOldJobsM awDays now st).sessionChannelCounters = none := by
        rw [archive_session]
        exact hs
      unfold getChannelJobNumber
      rw [h1, hs, archive_hwm]
      dsimp only
      rw [if_neg hm, if_neg hm]

theorem channel_counters_monotonic_witness :
    ((alookup "tech" (ManagerState.sessionChannelCounters
        ⟨createEmptyDatabase 7 0, [("tech", 5)], [], []⟩)).isSome = true
      ∨ (alookup "tech" (ManagerState.data
          ⟨createEmptyDatabase 7 0, [("tech", 5)], [], []⟩).metadata.channelJobNumbers).getD 0
        ≠ 0)
    ∧ (getChannelJobNumber "tech"
        (archiveOldJobsM 7 0 ⟨createEmptyDatabase 7 0, [("tech", 5)], [], []⟩)).1
      = (getChannelJobNumber "tech" ⟨createEmptyDatabase 7 0, [("tech", 5)], [], []⟩).1 := by
  refine ⟨Or.inl (by decide), ?_⟩
  exact channel_counters_monotonic.2 7 0 "tech"
    ⟨createEmptyDatabase 7 0, [("tech", 5)], [], []⟩ (Or.inl (by decide))

/-- **C4 counterexample**: the claim asserts that after archiving
removes from the active ledger all instances referencing channel C,
the next `getChannelJobNumber(C)` call still returns the maximum
previously issued number plus one, on first use reconstructing the
seed from active-ledger deliveries plus deliveries counted across
archive files. Take a state holding one active record with a delivery
numbered 1 to channel `"tech"`, no session counter and no persisted
high-water-mark (the cache of archive counts was computed at
construction, when the archives were empty). Before archiving the call
returns 2 — but after `archiveOldJobs` moves the record to an archive
file the same call returns 1, because the reconstruction adds the
stale constructor-time cache (0) instead of recounting the archive
files: the next value regresses and the issued number 1 is repeated. -/
theorem channel_counters_counterexample :
    (getChannelJobNumber "tech"
        ⟨⟨2, 0, [⟨.derived "J" 0 1, "J", "Acme", "Engineer", 0, none, none, none,
          [("tech", ⟨"m1", "public", 0, 1⟩)], 1, none, none, none⟩], ⟨1, 7, []⟩⟩,
          [], [], []⟩).1 = 2
    ∧ (getChannelJobNumber "tech"
        (archiveOldJobsM 7 (10 * msPerDay)
          ⟨⟨2, 0, [⟨.derived "J" 0 1, "J", "Acme", "Engineer", 0, none, none, none,
            [("tech", ⟨"m1", "public", 0, 1⟩)], 1, none, none, none⟩], ⟨1, 7, []⟩⟩,
            [], [], []⟩)).1 = 1 := by
  constructor
  · decide
  · decide

end JobsAggregator

namespace JobsAggregator

/-! ## Merge and archive membership -/

theorem mergeInto_id (m d : JobRecord) (h : m.id = d.id) : (mergeInto m d).id = d.id := by
  unfold mergeInto
  by_cases h1 : d.postedToDiscord < m.postedToDiscord
  · simp [h1, h]
  · by_cases h2 : d.postedToDiscord = m.postedToDiscord
    · by_cases h3 : m.discordPosts.isEmpty = true <;> simp [h1, h2, h3]
    · simp [h1, h2]

theorem mergeStep_id (m d : JobRecord) :
    (if (d.id == m.id) = true then mergeInto m d else d).id = d.id := by
  by_cases h : (d.id == m.id) = true
  · rw [if_pos h]
    exact mergeInto_id m d (by simpa using (beq_iff_eq.mp h).symm)
  · rw [if_neg h]

theorem mergeInto_eval (c1 c2 : JobRecord) (hpost : c2.postedToDiscord = c1.postedToDiscord)
    (hne : c1.discordPosts.isEmpty = false) :
    mergeInto c1 c2 = { c2 with
      discordPosts := c1.discordPosts ++
        c2.discordPosts.filter
          (fun cd => !(c1.discordPosts.any (fun cd2 => cd2.1 == cd.1))) } := by
  unfold mergeInto
  rw [if_neg (by rw [hpost]; exact Nat.lt_irrefl _), if_pos hpost,
    if_neg (by simp [hne])]

theorem mergeRecord_filter_ne (acc : List JobRecord) (m : JobRecord) (tid : RecordId)
    (hm : (m.id == tid) = false) :
    (mergeRecord acc m).filter (fun j => j.id == tid)
      = acc.filter (fun j => j.id == tid) := by
  unfold mergeRecord
  cases hf : acc.find? (fun d => d.id == m.id) with
  | none =>
    simp only [hf]
    rw [List.filter_append]
    have h1 : ([m].filter (fun j => j.id == tid)) = [] := by
      simp [List.filter, hm]
    rw [h1, List.append_nil]
  | some d0 =>
    simp only [hf]
    rw [filter_map_of_pres _ _ _
      (fun a ha => congrArg (fun r => r == tid) (mergeStep_id m a))]
    have hid : ∀ a ∈ acc.filter (fun j => j.id == tid),
        (if (a.id == m.id) = true then mergeInto m a else a) = a := by
      intro a ha
      have hpa := (List.mem_filter.mp ha).2
      have haid : a.id = tid := by simpa using hpa
      have hmne : m.id ≠ tid := by simpa using hm
      have hfa : (a.id == m.id) = false := by
        simp [haid]
        exact fun hc => hmne hc.symm
      rw [if_neg (by simp [hfa])]
    exact (List.map_congr_left hid).trans (List.map_id _)

theorem mergeRecord_filter_eq (acc : List JobRecord) (c1 c2 : JobRecord)
    (hacc : acc.filter (fun j => j.id == c1.id) = [c2]) :
    (mergeRecord acc c1).filter (fun j => j.id == c1.id) = [mergeInto c1 c2] := by
  have hfind : acc.find? (fun d => d.id == c1.id) = some c2 := find?_of_filter_cons hacc
  unfold mergeRecord
  simp only [hfind]
  rw [filter_map_of_pres _ _ _
    (fun a ha => congrArg (fun r => r == c1.id) (mergeStep_id c1 a)), hacc]
  have hc2 : (c2.id == c1.id) = true := (mem_of_filter_singleton hacc).2
  simp only [List.map_cons, List.map_nil]
  rw [if_pos hc2]

theorem mergeJobs_filter_none (rest : List JobRecord) (acc : List JobRecord) (tid : RecordId)
    (h : rest.filter (fun j => j.id == tid) = []) :
    (rest.foldl mergeRecord acc).filter (fun j => j.id == tid)
      = acc.filter (fun j => j.id == tid) := by
  induction rest generalizing acc with
  | nil => rfl
  | cons m rest2 ih =>
    have hm : (m.id == tid) = false := by
      by_cases hmm : (m.id == tid) = true
      · rw [List.filter_cons, if_pos hmm] at h
        simp at h
      · simpa using hmm
    rw [List.filter_cons, if_neg (by simp [hm])] at h
    simp only [List.foldl_cons]
    rw [ih (mergeRecord acc m) h, mergeRecord_filter_ne acc m tid hm]

theorem mergeJobs_filter (memory : List JobRecord) (disk : List JobRecord)
    (c1 c2 : JobRecord)
    (hmem : memory.filter (fun j => j.id == c1.id) = [c1])
    (hdisk : disk.filter (fun j => j.id == c1.id) = [c2]) :
    (mergeJobs memory disk).filter (fun j => j.id == c1.id) = [mergeInto c1 c2] := by
  unfold mergeJobs
  revert hmem hdisk
  induction memory generalizing disk with
  | nil =>
    intro hmem hdisk
    simp at hmem
  | cons x rest ih =>
    intro hmem hdisk
    by_cases hx : (x.id == c1.id) = true
    · rw [List.filter_cons, if_pos hx] at hmem
      obtain ⟨hx1, hrest⟩ := List.cons.inj hmem
      simp only [List.foldl_cons]
      rw [hx1]
      rw [mergeJobs_filter_none rest (mergeRecord disk c1) c1.id hrest]
      exact mergeRecord_filter_eq disk c1 c2 hdisk
    · rw [List.filter_cons, if_neg hx] at hmem
      simp only [List.foldl_cons]
      have hdisk2 : (mergeRecord disk x).filter (fun j => j.id == c1.id) = [c2] :=
        (mergeRecord_filter_ne disk x c1.id (by simpa using hx)).trans hdisk
      exact ih (mergeRecord disk x) hmem hdisk2

theorem mem_insertByPosted (j x : JobRecord) (l : List JobRecord) :
    x ∈ insertByPosted j l ↔ x = j ∨ x ∈ l := by
  induction l with
  | nil => simp [insertByPosted]
  | cons y t ih =>
    unfold insertByPosted
    by_cases h : j.postedToDiscord ≤ y.postedToDiscord
    · simp [h]
    · simp [h, ih]
      tauto

theorem mem_sortByPosted (x : JobRecord) (l : List JobRecord) :
    x ∈ sortByPosted l ↔ x ∈ l := by
  induction l with
  | nil => simp [sortByPosted]
  | cons y t ih => simp [sortByPosted, mem_insertByPosted, ih]

theorem mem_archiveMonth (file monthJobs : List JobRecord) (e : JobRecord)
    (hmem : e ∈ monthJobs)
    (hfresh : ∀ j ∈ file, j.id ≠ e.id) :
    e ∈ archiveMonth file monthJobs := by
  unfold archiveMonth
  rw [mem_sortByPosted]
  refine List.mem_append.mpr (Or.inr (List.mem_filter.mpr ⟨hmem, ?_⟩))
  simp only [decide_eq_true_eq]
  intro hcont
  rcases List.mem_map.mp (by simpa using hcont) with ⟨j, hj, hje⟩
  exact hfresh j hj hje

theorem klookup_foldl_preserve (toA : List JobRecord) (keys : List Nat)
    (acc : List (Nat × List JobRecord)) (m : Nat) (hm : m ∉ keys) :
    klookup m (keys.foldl (archiveFoldStep toA) acc) = klookup m acc := by
  induction keys generalizing acc with
  | nil => rfl
  | cons k ks ih =>
    have hk : k ≠ m := fun h => hm (by simp [h])
    simp only [List.foldl_cons]
    rw [ih (archiveFoldStep toA acc k) (fun h => hm (by simp [h]))]
    unfold archiveFoldStep
    exact klookup_kset_ne hk _ _

theorem klookup_foldl_mem (toA : List JobRecord) (keys : List Nat)
    (acc : List (Nat × List JobRecord)) (m : Nat) (hm : m ∈ keys) (hnd : keys.Nodup) :
    klookup m (keys.foldl (archiveFoldStep toA) acc)
      = some (archiveMonth ((klookup m acc).getD [])
          (toA.filter (fun j => monthKey j.postedToDiscord == m))) := by
  induction keys generalizing acc with
  | nil => simp at hm
  | cons k ks ih =>
    rcases List.mem_cons.mp hm with rfl | hmem
    · have hnot : m ∉ ks := (List.nodup_cons.mp hnd).1
      simp only [List.foldl_cons]
      rw [klookup_foldl_preserve toA ks _ m hnot]
      unfold archiveFoldStep
      exact klookup_kset_self m _ acc
    · have hk : k ≠ m := by
        rintro rfl
        exact (List.nodup_cons.mp hnd).1 hmem
      have hpres : klookup m (archiveFoldStep toA acc k) = klookup m acc := by
        unfold archiveFoldStep
        exact klookup_kset_ne hk _ _
      simp only [List.foldl_cons]
      rw [ih (archiveFoldStep toA acc k) hmem (List.nodup_cons.mp hnd).2, hpres]

theorem mem_archFlatten_of_klookup {m : Nat} {f : List JobRecord}
    {l : List (Nat × List JobRecord)} (h : klookup m l = some f) {j : JobRecord}
    (hj : j ∈ f) : j ∈ archFlatten l := by
  induction l with
  | nil => simp [klookup] at h
  | cons p rest ih =>
    obtain ⟨k, v⟩ := p
    by_cases hk : k = m
    · simp only [klookup, if_pos hk] at h
      obtain rfl := Option.some.inj h
      show j ∈ v ++ archFlatten rest
      exact List.mem_append.mpr (Or.inl hj)
    · simp only [klookup, if_neg hk] at h
      show j ∈ v ++ archFlatten rest
      exact List.mem_append.mpr (Or.inr (ih h))

theorem mem_allRecords_archive (aw now : Nat) (st : ManagerState) (e : JobRecord)
    (hmem : e ∈ st.data.jobs)
    (hfresh : ∀ j ∈ archFlatten st.archiveFiles, j.id ≠ e.id) :
    e ∈ allRecords (archiveOldJobsM aw now st) := by
  by_cases hemp : ((st.data.jobs.filter (fun j => !(withinWindowJ aw now j))).isEmpty = true)
  · have harch : archiveOldJobsM aw now st = st := by
      simp only [archiveOldJobsM]
      rw [if_pos hemp]
    rw [harch]
    exact List.mem_append.mpr (Or.inl hmem)
  · by_cases hw : withinWindowJ aw now e = true
    · refine List.mem_append.mpr (Or.inl ?_)
      have hjobs : (archiveOldJobsM aw now st).data.jobs
          = st.data.jobs.filter (withinWindowJ aw now) := by
        simp only [archiveOldJobsM]
        rw [if_neg hemp]
      rw [hjobs]
      exact List.mem_filter.mpr ⟨hmem, hw⟩
    · have hetoA : e ∈ st.data.jobs.filter (fun j => !(withinWindowJ aw now j)) :=
        List.mem_filter.mpr ⟨hmem, by simp [Bool.not_eq_true] at hw; simp [hw]⟩
      have hm : monthKey e.postedToDiscord
          ∈ ((st.data.jobs.filter (fun j => !(withinWindowJ aw now j))).map
              (fun j => monthKey j.postedToDiscord)).dedup :=
        List.mem_dedup.mpr (List.mem_map_of_mem _ hetoA)
      have hnd := List.nodup_dedup
        ((st.data.jobs.filter (fun j => !(withinWindowJ aw now j))).map
          (fun j => monthKey j.postedToDiscord))
      have hlook := klookup_foldl_mem
        (st.data.jobs.filter (fun j => !(withinWindowJ aw now j)))
        _ st.archiveFiles (monthKey e.postedToDiscord) hm hnd
      have hfile : e ∈ archiveMonth
          ((klookup (monthKey e.postedToDiscord) st.archiveFiles).getD [])
          ((st.data.jobs.filter (fun j => !(withinWindowJ aw now j))).filter
            (fun j => monthKey j.postedToDiscord == monthKey e.postedToDiscord)) := by
        refine mem_archiveMonth _ _ e (List.mem_filter.mpr ⟨hetoA, by simp⟩) ?_
        cases hkl : klookup (monthKey e.postedToDiscord) st.archiveFiles with
        | none => simp
        | some f =>
          intro j hj
          exact hfresh j (mem_archFlatten_of_klookup hkl hj)
      refine List.mem_append.mpr (Or.inr ?_)
      have harchives : (archiveOldJobsM aw now st).archiveFiles
          = (((st.data.jobs.filter (fun j => !(withinWindowJ aw now j))).map
              (fun j => monthKey j.postedToDiscord)).dedup).foldl
            (archiveFoldStep (st.data.jobs.filter (fun j => !(withinWindowJ aw now j))))
            st.archiveFiles := by
        simp only [archiveOldJobsM]
        rw [if_neg hemp]
      rw [harchives]
      exact mem_archFlatten_of_klookup hlook hfile

/-- **C1**: merge union in `savePostedJobs`. When the in-memory
snapshot and the freshly reloaded disk records each hold exactly one
copy of the same instance id, with equal `postedToDiscord` timestamps,
the memory copy carrying a delivery for channel `a` and the disk copy
one for a different channel `b`, the instance persisted by the save
(surviving the subsequent `archiveOldJobs`, whether it stays active or
moves to a monthly archive file) carries **both** channel entries. -/
theorem merge_union_preserves_channel_deliveries :
    ∀ (awDays now : Nat) (st : ManagerState) (diskJobs : List JobRecord)
      (c1 c2 : JobRecord) (a b : String) (pa pb : ChannelPost),
      st.data.jobs.filter (fun j => j.id == c1.id) = [c1] →
      diskJobs.filter (fun j => j.id == c1.id) = [c2] →
      c2.postedToDiscord = c1.postedToDiscord →
      alookup a c1.discordPosts = some pa →
      alookup b c2.discordPosts = some pb →
      alookup b c1.discordPosts = none →
      (∀ j ∈ archFlatten st.archiveFiles, j.id ≠ c1.id) →
      ∃ e ∈ allRecords (savePostedJobsData awDays now st diskJobs),
        e.id = c1.id
        ∧ alookup a e.discordPosts = some pa
        ∧ alookup b e.discordPosts = some pb := by
  intro awDays now st diskJobs c1 c2 a b pa pb hmem hdisk hpost ha hb hb1 hfresh
  have hne : c1.discordPosts.isEmpty = false := isEmpty_false_of_alookup ha
  have hmerge := mergeJobs_filter st.data.jobs diskJobs c1 c2 hmem hdisk
  have heval := mergeInto_eval c1 c2 hpost hne
  obtain ⟨hmem2, hpe⟩ := mem_of_filter_singleton hmerge
  have heid : (mergeInto c1 c2).id = c1.id := by simpa using hpe
  refine ⟨mergeInto c1 c2, ?_, heid, ?_, ?_⟩
  · unfold savePostedJobsData
    refine mem_allRecords_archive awDays now _ _ hmem2 ?_
    intro j hj
    rw [heid]
    exact hfresh j hj
  · rw [heval]
    exact alookup_append_left _ ha
  · rw [heval]
    rw [alookup_append_right _ hb1]
    refine alookup_filter_keep hb ?_
    simp only [Bool.not_eq_true']
    simpa using any_fst_false_of_alookup_none hb1

end JobsAggregator

namespace JobsAggregator

theorem merge_union_preserves_channel_deliveries_witness :
    (([⟨RecordId.derived "J" 0 1, "J", "Acme", "Engineer", 5, none, none, none,
        [("a", ⟨"m1", "t", 5, 1⟩)], 1, none, none, none⟩] : List JobRecord).filter
      (fun j => j.id == RecordId.derived "J" 0 1)
      = [⟨RecordId.derived "J" 0 1, "J", "Acme", "Engineer", 5, none, none, none,
        [("a", ⟨"m1", "t", 5, 1⟩)], 1, none, none, none⟩])
    ∧ ∃ e ∈ allRecords (savePostedJobsData 7 6
        ⟨⟨2, 0, [⟨RecordId.derived "J" 0 1, "J", "Acme", "Engineer", 5, none, none, none,
          [("a", ⟨"m1", "t", 5, 1⟩)], 1, none, none, none⟩], ⟨1, 7, []⟩⟩, [], [], []⟩
        [⟨RecordId.derived "J" 0 1, "J", "Acme", "Engineer", 5, none, none, none,
          [("b", ⟨"m2", "t", 5, 2⟩)], 1, none, none, none⟩]),
      e.id = RecordId.derived "J" 0 1
      ∧ alookup "a" e.discordPosts = some ⟨"m1", "t", 5, 1⟩
      ∧ alookup "b" e.discordPosts = some ⟨"m2", "t", 5, 2⟩ := by
  constructor
  · decide
  · exact merge_union_preserves_channel_deliveries 7 6
      ⟨⟨2, 0, [⟨RecordId.derived "J" 0 1, "J", "Acme", "Engineer", 5, none, none, none,
        [("a", ⟨"m1", "t", 5, 1⟩)], 1, none, none, none⟩], ⟨1, 7, []⟩⟩, [], [], []⟩
      [⟨RecordId.derived "J" 0 1, "J", "Acme", "Engineer", 5, none, none, none,
        [("b", ⟨"m2", "t", 5, 2⟩)], 1, none, none, none⟩]
      ⟨RecordId.derived "J" 0 1, "J", "Acme", "Engineer", 5, none, none, none,
        [("a", ⟨"m1", "t", 5, 1⟩)], 1, none, none, none⟩
      ⟨RecordId.derived "J" 0 1, "J", "Acme", "Engineer", 5, none, none, none,
        [("b", ⟨"m2", "t", 5, 2⟩)], 1, none, none, none⟩
      "a" "b" ⟨"m1", "t", 5, 1⟩ ⟨"m2", "t", 5, 2⟩
      (by decide) (by decide) (by decide) (by decide) (by decide) (by decide)
      (by decide)

end JobsAggregator
